import Mathlib

set_option maxRecDepth 8000

/-!
Shallow embedding of the B+Tree node layer of `src/btree/node.rs`.

Nodes are modelled by the live prefixes of their fixed-size arrays:
a `LeafNode` with `count_ = c` is the list of its first `c` keys and
first `c` data words plus the `next` page id; an `InnerNode` is the
list of its first `c` separator keys and first `c + 1` child page ids.
Machine integers (`u64`, `PageId`, `u16`) are modelled as `Nat`: the
code only copies and compares them, so no wrap-around is observable.
Rust's `slice::binary_search` is embedded as a fuel-indexed loop
(`bsearchGo`) probing `left + (right - left) / 2`, exactly the probe
sequence of the standard library routine; `fuel = ks.length` bounds the
iteration count since the gap shrinks at every step.  An operation that
can hit a bounds-check panic in Rust (`InnerNode::remove` indexing
`self.keys()[i]`) returns an `Option`, `none` marking the panic.
-/

namespace BTreeNode

/-- Loop body of Rust `slice::binary_search_by` on a `Nat` slice. -/
def bsearchGo (ks : List Nat) (key : Nat) : Nat → Nat → Nat → Except Nat Nat
  | 0, left, _ => .error left
  | fuel + 1, left, right =>
    if left < right then
      let mid := left + (right - left) / 2
      let k := ks.getD mid 0
      if k < key then bsearchGo ks key fuel (mid + 1) right
      else if key < k then bsearchGo ks key fuel left mid
      else .ok mid
    else .error left

/-- Rust `ks.binary_search(&key)`: `.ok i` is `Ok(i)`, `.error i` is `Err(i)`. -/
def bsearch (ks : List Nat) (key : Nat) : Except Nat Nat :=
  bsearchGo ks key ks.length 0 ks.length

/-- Default `Node::find_slot` (used by `LeafNode`): both arms return the index. -/
def findSlotLeaf (ks : List Nat) (key : Nat) : Nat :=
  match bsearch ks key with
  | .ok i => i
  | .error i => i

/-- Overridden `InnerNode::find_slot`: an exact match returns `i + 1`. -/
def findSlotInner (ks : List Nat) (key : Nat) : Nat :=
  match bsearch ks key with
  | .ok i => i + 1
  | .error i => i

/-- Live content of a `LeafNode`: `keys[..count]`, `data[..count]`, `next`. -/
structure LeafNode where
  keys : List Nat
  data : List Nat
  next : Nat
  deriving DecidableEq, Repr

/-- Live content of an `InnerNode`: `keys[..count]`, `children[..count + 1]`. -/
structure InnerNode where
  keys : List Nat
  children : List Nat
  deriving DecidableEq, Repr

def LeafNode.count (n : LeafNode) : Nat := n.keys.length

def InnerNode.count (n : InnerNode) : Nat := n.keys.length

/-- Live `content()` slice of an inner node (`children[..count + 1]`). -/
def InnerNode.content (n : InnerNode) : List Nat := n.children

def LeafNode.findSlot (n : LeafNode) (key : Nat) : Nat := findSlotLeaf n.keys key

def InnerNode.findSlot (n : InnerNode) (key : Nat) : Nat := findSlotInner n.keys key

/-- Default `Node::contains`: `keys().get(find_slot(key)) == Some(&key)`;
for a leaf `find_slot` is the default one. -/
def LeafNode.contains (n : LeafNode) (key : Nat) : Bool :=
  n.keys.get? (n.findSlot key) = some key

/-- Default `Node::contains` as instantiated for an inner node: the
dispatched `find_slot` is the overridden one. -/
def InnerNode.contains (n : InnerNode) (key : Nat) : Bool :=
  n.keys.get? (n.findSlot key) = some key

/-- Rust `LeafNode::get`: direct binary search, value on a hit. -/
def LeafNode.get (n : LeafNode) (key : Nat) : Option Nat :=
  (bsearch n.keys key).toOption.map (fun i => n.data.getD i 0)

/-- Rust `LeafNode::insert_idx`: shift entries from `i` right, write at `i`. -/
def LeafNode.insertIdx (n : LeafNode) (i k v : Nat) : LeafNode :=
  ⟨n.keys.take i ++ [k] ++ n.keys.drop i,
   n.data.take i ++ [v] ++ n.data.drop i,
   n.next⟩

/-- Default `Node::insert` for a leaf. -/
def LeafNode.insert (n : LeafNode) (k v : Nat) : LeafNode :=
  n.insertIdx (n.findSlot k) k v

/-- Rust `LeafNode::remove_idx`: returns `(keys[i], data[i])` and shifts left. -/
def LeafNode.removeIdx (n : LeafNode) (i : Nat) : (Nat × Nat) × LeafNode :=
  ((n.keys.getD i 0, n.data.getD i 0),
   ⟨n.keys.eraseIdx i, n.data.eraseIdx i, n.next⟩)

/-- Default `Node::remove` for a leaf: `keys().get(i)` guard, then `remove_idx`. -/
def LeafNode.remove (n : LeafNode) (key : Nat) : Option Nat × LeafNode :=
  let i := n.findSlot key
  if n.keys.get? i = some key then
    let r := n.removeIdx i
    (some r.1.2, r.2)
  else (none, n)

/-- Rust `InnerNode::insert_idx`: key goes to slot `i`, child to slot `i + 1`. -/
def InnerNode.insertIdx (n : InnerNode) (i k v : Nat) : InnerNode :=
  ⟨n.keys.take i ++ [k] ++ n.keys.drop i,
   n.children.take (i + 1) ++ [v] ++ n.children.drop (i + 1)⟩

/-- Default `Node::insert` for an inner node (dispatches the overridden
`find_slot`). -/
def InnerNode.insert (n : InnerNode) (k v : Nat) : InnerNode :=
  n.insertIdx (n.findSlot k) k v

/-- Rust `InnerNode::remove_idx`: returns `(keys[i], children[i + 1])`,
shifts both arrays left over the removed slots. -/
def InnerNode.removeIdx (n : InnerNode) (i : Nat) : (Nat × Nat) × InnerNode :=
  ((n.keys.getD i 0, n.children.getD (i + 1) 0),
   ⟨n.keys.eraseIdx i, n.children.eraseIdx (i + 1)⟩)

/-- Overridden `InnerNode::remove`: it indexes `self.keys()[i]` directly, a
bounds-checked slice access; `none` models the panic when `i = count`. -/
def InnerNode.remove (n : InnerNode) (key : Nat) : Option (Option Nat × InnerNode) :=
  let i := n.findSlot key
  match n.keys.get? i with
  | none => none
  | some k =>
    if k = key then
      let r := n.removeIdx (i - 1)
      some (some r.1.2, r.2)
    else some (none, n)

/-- Rust `LeafNode::split`.  Returns `(new_key, self_after, target)`:
`new_key` is the value written back through the `key` out-parameter. -/
def LeafNode.split (n : LeafNode) (key newval targetId : Nat) :
    Nat × LeafNode × LeafNode :=
  let newkey := key
  let remain := n.count / 2
  let i := n.findSlot newkey
  if i > remain then
    let tkeys := (n.keys.drop remain).take (i - remain) ++ [newkey] ++ n.keys.drop i
    let tdata := (n.data.drop remain).take (i - remain) ++ [newval] ++ n.data.drop i
    (tkeys.getD 0 0,
     ⟨n.keys.take remain, n.data.take remain, targetId⟩,
     ⟨tkeys, tdata, n.next⟩)
  else
    let tkeys := n.keys.drop remain
    let tdata := n.data.drop remain
    let skeys := n.keys.take i ++ [newkey] ++ (n.keys.drop i).take (remain - i)
    let sdata := n.data.take i ++ [newval] ++ (n.data.drop i).take (remain - i)
    (tkeys.getD 0 0, ⟨skeys, sdata, targetId⟩, ⟨tkeys, tdata, n.next⟩)

/-- Rust `InnerNode::split` (the `target_id` argument is ignored by the
source).  Returns `(new_key, self_after, target)`; `new_key` is the
promoted separator written through the `key` out-parameter. -/
def InnerNode.split (n : InnerNode) (key newval : Nat) :
    Nat × InnerNode × InnerNode :=
  let newkey := key
  let remain := (n.count + 1) / 2
  let i := n.findSlot newkey
  if i > remain then
    let tkeys := (n.keys.drop remain).take (i - remain) ++ [newkey] ++ n.keys.drop i
    let tchildren :=
      (n.children.drop remain).take (i + 1 - remain) ++ [newval] ++
        n.children.drop (i + 1)
    (n.keys.getD (remain - 1) 0,
     ⟨n.keys.take (remain - 1), n.children.take remain⟩,
     ⟨tkeys, tchildren⟩)
  else
    let tkeys := n.keys.drop (remain + 1)
    let tchildren := n.children.drop (remain + 1)
    let skeys := n.keys.take i ++ [newkey] ++ (n.keys.drop i).take (remain - i)
    let schildren :=
      n.children.take (i + 1) ++ [newval] ++
        (n.children.drop (i + 1)).take (remain - i)
    (n.keys.getD remain 0, ⟨skeys, schildren⟩, ⟨tkeys, tchildren⟩)

/-- Rust `LeafNode::merge`: append the sibling's entries, take its `next`. -/
def LeafNode.merge (n sibling : LeafNode) (_parentKey : Nat) : LeafNode :=
  ⟨n.keys ++ sibling.keys, n.data ++ sibling.data, sibling.next⟩

/-- Rust `InnerNode::merge`: parent separator goes between the key ranges,
child arrays are concatenated. -/
def InnerNode.merge (n sibling : InnerNode) (parentKey : Nat) : InnerNode :=
  ⟨n.keys ++ [parentKey] ++ sibling.keys, n.children ++ sibling.children⟩

/-- Rust `LeafNode::borrow`.  Returns `(self_after, parent_after,
sibling_after)`. -/
def LeafNode.borrow (n : LeafNode) (parent : InnerNode) (parentSlot : Nat)
    (sibling : LeafNode) (isRight : Bool) : LeafNode × InnerNode × LeafNode :=
  let iDel := if isRight then 0 else sibling.count - 1
  let iIns := if isRight then n.count else 0
  let r := sibling.removeIdx iDel
  let k := r.1.1
  let v := r.1.2
  let sibling' := r.2
  let parent' : InnerNode :=
    if isRight then
      ⟨parent.keys.set parentSlot (sibling'.keys.getD 0 0), parent.children⟩
    else
      ⟨parent.keys.set (parentSlot - 1) k, parent.children⟩
  (n.insertIdx iIns k v, parent', sibling')

/-- Rust `InnerNode::borrow`.  Returns `(self_after, parent_after,
sibling_after)`; the two `mem::swap`s rotate the borrowed key with the
parent separator and the borrowed child with the boundary child. -/
def InnerNode.borrow (n : InnerNode) (parent : InnerNode) (parentSlot : Nat)
    (sibling : InnerNode) (isRight : Bool) : InnerNode × InnerNode × InnerNode :=
  let iDel := if isRight then 0 else sibling.count - 1
  let iIns := if isRight then n.count else 0
  let r := sibling.removeIdx iDel
  let k0 := r.1.1
  let v0 := r.1.2
  let sib1 := r.2
  if isRight then
    let k := parent.keys.getD parentSlot 0
    let parent' : InnerNode := ⟨parent.keys.set parentSlot k0, parent.children⟩
    let v := sib1.children.getD 0 0
    let sibling' : InnerNode := ⟨sib1.keys, sib1.children.set 0 v0⟩
    (n.insertIdx iIns k v, parent', sibling')
  else
    let k := parent.keys.getD (parentSlot - 1) 0
    let parent' : InnerNode := ⟨parent.keys.set (parentSlot - 1) k0, parent.children⟩
    let v := n.children.getD 0 0
    let n1 : InnerNode := ⟨n.keys, n.children.set 0 v0⟩
    (n1.insertIdx iIns k v, parent', sib1)

lemma pairwise_getD_lt {ks : List Nat} (hs : List.Pairwise (· < ·) ks) {i j : Nat}
    (hij : i < j) (hj : j < ks.length) : ks.getD i 0 < ks.getD j 0 := by
  have hi : i < ks.length := lt_trans hij hj
  rw [List.getD_eq_getElem?_getD, List.getD_eq_getElem?_getD,
      List.getElem?_eq_getElem hi, List.getElem?_eq_getElem hj]
  exact List.pairwise_iff_getElem.1 hs i j hi hj hij

lemma bsearchGo_succ (ks : List Nat) (key fuel left right : Nat) :
    bsearchGo ks key (fuel + 1) left right =
      if left < right then
        let mid := left + (right - left) / 2
        let k := ks.getD mid 0
        if k < key then bsearchGo ks key fuel (mid + 1) right
        else if key < k then bsearchGo ks key fuel left mid
        else .ok mid
      else .error left := rfl

lemma bsearchGo_spec (ks : List Nat) (key : Nat) (hs : List.Pairwise (· < ·) ks) :
    ∀ fuel left right, left ≤ right → right ≤ ks.length → right - left ≤ fuel →
    (∀ j, j < left → ks.getD j 0 < key) →
    (∀ j, right ≤ j → j < ks.length → key < ks.getD j 0) →
    (∀ i, bsearchGo ks key fuel left right = .ok i →
      ks.getD i 0 = key ∧ i < ks.length) ∧
    (∀ i, bsearchGo ks key fuel left right = .error i →
      i ≤ ks.length ∧ (∀ j, j < i → ks.getD j 0 < key) ∧
      (∀ j, i ≤ j → j < ks.length → key < ks.getD j 0)) := by
  intro fuel
  induction fuel with
  | zero =>
    intro left right hlr hrl hgap hlo hhi
    have hle : left = right := by omega
    subst hle
    refine ⟨fun i h => by simp [bsearchGo] at h, fun i h => ?_⟩
    have hil : left = i := by simpa [bsearchGo] using h
    subst hil
    exact ⟨le_trans hlr hrl, hlo, fun j hj => hhi j hj⟩
  | succ fuel ih =>
    intro left right hlr hrl hgap hlo hhi
    rw [bsearchGo_succ]
    by_cases hlt : left < right
    · rw [if_pos hlt]
      simp only []
      have hmid1 : left ≤ left + (right - left) / 2 := Nat.le_add_right _ _
      have hmid2 : left + (right - left) / 2 < right := by omega
      have hmidlen : left + (right - left) / 2 < ks.length := lt_of_lt_of_le hmid2 hrl
      rcases lt_trichotomy (ks.getD (left + (right - left) / 2) 0) key with h1 | h2 | h3
      · rw [if_pos h1]
        refine ih (left + (right - left) / 2 + 1) right (by omega) hrl (by omega)
          (fun j hj => ?_) hhi
        rcases lt_trichotomy j (left + (right - left) / 2) with hj1 | hj2 | hj3
        · exact lt_trans (pairwise_getD_lt hs hj1 hmidlen) h1
        · subst hj2; exact h1
        · omega
      · rw [if_neg (by omega), if_neg (by omega)]
        refine ⟨fun i h => ?_, fun i h => by simp at h⟩
        have hmi := Except.ok.inj h
        subst hmi
        exact ⟨h2, hmidlen⟩
      · rw [if_neg (by omega), if_pos h3]
        refine ih left (left + (right - left) / 2) hmid1 (le_of_lt hmidlen) (by omega)
          hlo (fun j hj hjlen => ?_)
        rcases lt_or_eq_of_le hj with hj1 | hj2
        · exact lt_trans h3 (pairwise_getD_lt hs hj1 hjlen)
        · rw [← hj2]; exact h3
    · rw [if_neg hlt]
      have hle : left = right := by omega
      refine ⟨fun i h => by simp at h, fun i h => ?_⟩
      have hil : left = i := by simpa using h
      subst hil
      exact ⟨by omega, hlo, fun j hj => hhi j (by omega)⟩

lemma bsearch_ok {ks : List Nat} {key i : Nat} (hs : List.Pairwise (· < ·) ks)
    (h : bsearch ks key = .ok i) : ks.getD i 0 = key ∧ i < ks.length :=
  (bsearchGo_spec ks key hs ks.length 0 ks.length (Nat.zero_le _) le_rfl
    (by omega) (fun j hj => absurd hj (Nat.not_lt_zero j))
    (fun j hj hjl => absurd hjl (not_lt_of_le hj))).1 i h

lemma bsearch_err {ks : List Nat} {key i : Nat} (hs : List.Pairwise (· < ·) ks)
    (h : bsearch ks key = .error i) :
    i ≤ ks.length ∧ (∀ j, j < i → ks.getD j 0 < key) ∧
      (∀ j, i ≤ j → j < ks.length → key < ks.getD j 0) :=
  (bsearchGo_spec ks key hs ks.length 0 ks.length (Nat.zero_le _) le_rfl
    (by omega) (fun j hj => absurd hj (Nat.not_lt_zero j))
    (fun j hj hjl => absurd hjl (not_lt_of_le hj))).2 i h

lemma bsearch_err_not_mem {ks : List Nat} {key i : Nat}
    (hs : List.Pairwise (· < ·) ks) (h : bsearch ks key = .error i) : key ∉ ks := by
  intro hmem
  obtain ⟨j, hj, hjk⟩ := List.getElem_of_mem hmem
  obtain ⟨hi, hlo, hhi⟩ := bsearch_err hs h
  have hgd : ks.getD j 0 = key := by
    rw [List.getD_eq_getElem?_getD, List.getElem?_eq_getElem hj]; exact hjk
  rcases lt_or_ge j i with hji | hji
  · have hcl := hlo j hji
    omega
  · have hcl := hhi j hji hj
    omega

lemma bsearchGo_range (ks : List Nat) (key : Nat) :
    ∀ fuel left right, left ≤ right →
    (∀ i, bsearchGo ks key fuel left right = .ok i → left ≤ i ∧ i < right) ∧
    (∀ i, bsearchGo ks key fuel left right = .error i → left ≤ i ∧ i ≤ right) := by
  intro fuel
  induction fuel with
  | zero =>
    intro left right hlr
    refine ⟨fun i h => by simp [bsearchGo] at h, fun i h => ?_⟩
    have hil : left = i := by simpa [bsearchGo] using h
    subst hil
    exact ⟨le_rfl, hlr⟩
  | succ fuel ih =>
    intro left right hlr
    rw [bsearchGo_succ]
    by_cases hlt : left < right
    · rw [if_pos hlt]
      simp only []
      have hmid2 : left + (right - left) / 2 < right := by omega
      rcases lt_trichotomy (ks.getD (left + (right - left) / 2) 0) key with h1 | h2 | h3
      · rw [if_pos h1]
        obtain ⟨hok, herr⟩ := ih (left + (right - left) / 2 + 1) right (by omega)
        exact ⟨fun i h => by have := hok i h; omega, fun i h => by have := herr i h; omega⟩
      · rw [if_neg (by omega), if_neg (by omega)]
        refine ⟨fun i h => ?_, fun i h => by simp at h⟩
        have hmi := Except.ok.inj h
        subst hmi
        omega
      · rw [if_neg (by omega), if_pos h3]
        obtain ⟨hok, herr⟩ := ih left (left + (right - left) / 2) (by omega)
        exact ⟨fun i h => by have := hok i h; omega, fun i h => by have := herr i h; omega⟩
    · rw [if_neg hlt]
      refine ⟨fun i h => by simp at h, fun i h => ?_⟩
      have hil : left = i := by simpa using h
      subst hil
      exact ⟨le_rfl, hlr⟩

lemma findSlotLeaf_le (ks : List Nat) (key : Nat) : findSlotLeaf ks key ≤ ks.length := by
  obtain ⟨hok, herr⟩ := bsearchGo_range ks key ks.length 0 ks.length (Nat.zero_le _)
  unfold findSlotLeaf bsearch
  rcases hr : bsearchGo ks key ks.length 0 ks.length with i | i <;> dsimp only
  · have := herr i hr; omega
  · have := hok i hr; omega

lemma findSlotInner_le (ks : List Nat) (key : Nat) : findSlotInner ks key ≤ ks.length := by
  obtain ⟨hok, herr⟩ := bsearchGo_range ks key ks.length 0 ks.length (Nat.zero_le _)
  unfold findSlotInner bsearch
  rcases hr : bsearchGo ks key ks.length 0 ks.length with i | i <;> dsimp only
  · have := herr i hr; omega
  · have := hok i hr; omega

lemma sorted_getD_inj {ks : List Nat} (hs : List.Pairwise (· < ·) ks) {i j : Nat}
    (hi : i < ks.length) (hj : j < ks.length)
    (he : ks.getD i 0 = ks.getD j 0) : i = j := by
  rcases lt_trichotomy i j with h | h | h
  · have := pairwise_getD_lt hs h hj; omega
  · exact h
  · have := pairwise_getD_lt hs h hi; omega

lemma bsearch_found {ks : List Nat} {key j : Nat} (hs : List.Pairwise (· < ·) ks)
    (hj : j < ks.length) (hjk : ks.getD j 0 = key) : bsearch ks key = .ok j := by
  rcases hok : bsearch ks key with i | i
  · exfalso
    refine bsearch_err_not_mem hs hok ?_
    rw [← hjk, List.getD_eq_getElem ks 0 hj]
    exact List.getElem_mem hj
  · obtain ⟨hik, hil⟩ := bsearch_ok hs hok
    have hij : i = j := sorted_getD_inj hs hil hj (by rw [hik, hjk])
    rw [hij]

example : findSlotLeaf [2, 4, 6] 4 = 1 := by decide

example : findSlotLeaf [2, 4, 6] 5 = 2 := by decide

example : findSlotInner [2, 4, 6] 4 = 2 := by decide

example : findSlotInner [2, 4, 6] 7 = 3 := by decide

example : (LeafNode.mk [2, 4] [20, 40] 9).insert 3 30 =
    ⟨[2, 3, 4], [20, 30, 40], 9⟩ := by decide

example : (InnerNode.mk [5] [1, 2]).remove 7 = none := by decide

example : (InnerNode.mk [1, 2] [10, 11, 12]).remove 1 =
    some (none, ⟨[1, 2], [10, 11, 12]⟩) := by decide

/-- Linear-time boolean check for strict increase, used to discharge
sortedness hypotheses on concrete 255-element nodes cheaply. -/
def sortedLt : List Nat → Bool
  | [] => true
  | [_] => true
  | a :: b :: t => a < b && sortedLt (b :: t)

lemma sortedLt_pairwise : ∀ {l : List Nat}, sortedLt l = true → List.Pairwise (· < ·) l
  | [], _ => List.Pairwise.nil
  | [_], _ => List.pairwise_singleton _ _
  | a :: b :: t, h => by
    rw [sortedLt, Bool.and_eq_true] at h
    have hab : a < b := of_decide_eq_true h.1
    have htail := sortedLt_pairwise h.2
    have hbt : ∀ x ∈ t, b < x := (List.pairwise_cons.1 htail).1
    refine List.pairwise_cons.2 ⟨?_, htail⟩
    intro x hx
    rcases List.mem_cons.1 hx with rfl | hxt
    · exact hab
    · exact hab.trans (hbt x hxt)

lemma getD_zero_mem {l : List Nat} (h : l ≠ []) : l.getD 0 0 ∈ l := by
  cases l with
  | nil => exact absurd rfl h
  | cons a t => exact List.mem_cons_self a t

lemma findSlotLeaf_found {ks : List Nat} {key j : Nat}
    (hs : List.Pairwise (· < ·) ks) (hj : j < ks.length)
    (hjk : ks.getD j 0 = key) : findSlotLeaf ks key = j := by
  unfold findSlotLeaf
  rw [bsearch_found hs hj hjk]

lemma findSlotInner_found {ks : List Nat} {key j : Nat}
    (hs : List.Pairwise (· < ·) ks) (hj : j < ks.length)
    (hjk : ks.getD j 0 = key) : findSlotInner ks key = j + 1 := by
  unfold findSlotInner
  rw [bsearch_found hs hj hjk]

lemma bsearch_miss {ks : List Nat} {key : Nat} (hs : List.Pairwise (· < ·) ks)
    (hmem : key ∉ ks) : ∃ i, bsearch ks key = .error i := by
  rcases hok : bsearch ks key with i | i
  · exact ⟨i, rfl⟩
  · obtain ⟨hik, hil⟩ := bsearch_ok hs hok
    exfalso
    refine hmem ?_
    rw [← hik, List.getD_eq_getElem ks 0 hil]
    exact List.getElem_mem hil

lemma findSlotLeaf_miss {ks : List Nat} {key : Nat}
    (hs : List.Pairwise (· < ·) ks) (hmem : key ∉ ks) :
    findSlotLeaf ks key ≤ ks.length ∧
      (∀ j, j < ks.length → (ks.getD j 0 < key ↔ j < findSlotLeaf ks key)) := by
  obtain ⟨i, hi⟩ := bsearch_miss hs hmem
  obtain ⟨hle, hlo, hhi⟩ := bsearch_err hs hi
  have hfs : findSlotLeaf ks key = i := by unfold findSlotLeaf; rw [hi]
  rw [hfs]
  refine ⟨hle, fun j hj => ⟨fun hlt => ?_, fun hlt => hlo j hlt⟩⟩
  by_contra hij
  have := hhi j (by omega) hj
  omega

lemma findSlotInner_miss {ks : List Nat} {key : Nat}
    (hs : List.Pairwise (· < ·) ks) (hmem : key ∉ ks) :
    findSlotInner ks key = findSlotLeaf ks key := by
  obtain ⟨i, hi⟩ := bsearch_miss hs hmem
  unfold findSlotInner findSlotLeaf
  rw [hi]

/-- C9: on a node with strictly increasing keys, the leaf `find_slot`
returns the exact-match index on a hit and the insertion point (the
number of keys below `key` bounds it on both sides) on a miss, while the
inner `find_slot` returns `match_index + 1` on a hit and the same
standard insertion point on a miss. -/
theorem C9_find_slot_kinds (lf : LeafNode) (innr : InnerNode) (key : Nat)
    (hl : List.Pairwise (· < ·) lf.keys) (hi : List.Pairwise (· < ·) innr.keys) :
    (∀ j, j < lf.count → lf.keys.getD j 0 = key → lf.findSlot key = j) ∧
    (key ∉ lf.keys → lf.findSlot key ≤ lf.count ∧
      (∀ j, j < lf.count → (lf.keys.getD j 0 < key ↔ j < lf.findSlot key))) ∧
    (∀ j, j < innr.count → innr.keys.getD j 0 = key → innr.findSlot key = j + 1) ∧
    (key ∉ innr.keys → innr.findSlot key ≤ innr.count ∧
      (∀ j, j < innr.count → (innr.keys.getD j 0 < key ↔ j < innr.findSlot key))) := by
  refine ⟨fun j hj hjk => findSlotLeaf_found hl hj hjk,
    fun hmem => findSlotLeaf_miss hl hmem,
    fun j hj hjk => findSlotInner_found hi hj hjk,
    fun hmem => ?_⟩
  rw [InnerNode.findSlot, findSlotInner_miss hi hmem]
  exact findSlotLeaf_miss hi hmem

/-- Witness for C9 at concrete nodes: hit on the leaf at index 1, hit on
the inner node answering index 2, plus a miss on each. -/
theorem C9_find_slot_kinds_witness :
    (LeafNode.mk [2, 4] [20, 40] 0).findSlot 4 = 1 ∧
    (InnerNode.mk [2, 4] [7, 8, 9]).findSlot 4 = 2 ∧
    (LeafNode.mk [2, 4] [20, 40] 0).findSlot 3 ≤ 2 ∧
    (InnerNode.mk [2, 4] [7, 8, 9]).findSlot 5 ≤ 2 := by
  have h := C9_find_slot_kinds (LeafNode.mk [2, 4] [20, 40] 0)
    (InnerNode.mk [2, 4] [7, 8, 9]) 4 (by decide) (by decide)
  have h3 := C9_find_slot_kinds (LeafNode.mk [2, 4] [20, 40] 0)
    (InnerNode.mk [2, 4] [7, 8, 9]) 3 (by decide) (by decide)
  have h5 := C9_find_slot_kinds (LeafNode.mk [2, 4] [20, 40] 0)
    (InnerNode.mk [2, 4] [7, 8, 9]) 5 (by decide) (by decide)
  exact ⟨h.1 1 (by decide) (by decide), h.2.2.1 1 (by decide) (by decide),
    (h3.2.1 (by decide)).1, (h5.2.2.2 (by decide)).1⟩

/-- C2: leaf split is copy-up.  The returned key is exactly the first key
of the returned right-hand leaf and stays physically present there; the
right leaf takes over the old `next` pointer, and the old leaf's `next`
becomes `target_id`. -/
theorem C2_leaf_split_copy_up (n : LeafNode) (key newval targetId : Nat)
    (hfull : n.count = 255) :
    (n.split key newval targetId).1 =
      (n.split key newval targetId).2.2.keys.getD 0 0 ∧
    (n.split key newval targetId).1 ∈ (n.split key newval targetId).2.2.keys ∧
    (n.split key newval targetId).2.2.next = n.next ∧
    (n.split key newval targetId).2.1.next = targetId := by
  have hlen : n.keys.length = 255 := hfull
  dsimp only [LeafNode.split]
  split
  · dsimp only
    refine ⟨rfl, ?_, rfl, rfl⟩
    exact getD_zero_mem (by simp)
  · dsimp only
    refine ⟨rfl, ?_, rfl, rfl⟩
    refine getD_zero_mem ?_
    have hd : (n.keys.drop (n.count / 2)).length = 128 := by
      rw [List.length_drop, hlen]
      have h127 : n.count / 2 = 127 := by rw [hfull]
      rw [h127]
    intro hnil
    rw [hnil] at hd
    simp at hd

/-- Witness for C2 on a concrete full leaf holding keys `2, 4, ..., 510`
and incoming key 511 (which lands in the right half). -/
theorem C2_leaf_split_copy_up_witness :
    ((LeafNode.mk ((List.range 255).map (fun j => 2 * j + 2))
        ((List.range 255).map (fun j => 3 * j)) 77).split 511 42 12).2.2.next = 77 :=
  (C2_leaf_split_copy_up
    (LeafNode.mk ((List.range 255).map (fun j => 2 * j + 2))
      ((List.range 255).map (fun j => 3 * j)) 77) 511 42 12 (by rfl)).2.2.1

lemma leaf_split_count_left (n : LeafNode) (key newval targetId : Nat)
    (hfull : n.count = 255) :
    (n.split key newval targetId).2.1.count =
      if n.findSlot key > 127 then 127 else 128 := by
  have hlen : n.keys.length = 255 := hfull
  have h127 : n.count / 2 = 127 := by rw [hfull]
  have hle : n.findSlot key ≤ 255 := by
    have h := findSlotLeaf_le n.keys key
    rw [hlen] at h
    exact h
  rcases Nat.lt_or_ge 127 (n.findSlot key) with hgt | hle2
  · rw [if_pos hgt]
    dsimp only [LeafNode.split]
    rw [if_pos (show n.findSlot key > n.count / 2 by omega)]
    dsimp only
    simp [LeafNode.count, List.length_take, hlen, h127]
  · rw [if_neg (by omega)]
    dsimp only [LeafNode.split]
    rw [if_neg (show ¬ n.findSlot key > n.count / 2 by omega)]
    dsimp only
    simp [LeafNode.count, List.length_take, List.length_drop, hlen, h127]
    omega

lemma leaf_split_count_right (n : LeafNode) (key newval targetId : Nat)
    (hfull : n.count = 255) :
    (n.split key newval targetId).2.2.count =
      if n.findSlot key > 127 then 129 else 128 := by
  have hlen : n.keys.length = 255 := hfull
  have h127 : n.count / 2 = 127 := by rw [hfull]
  have hle : n.findSlot key ≤ 255 := by
    have h := findSlotLeaf_le n.keys key
    rw [hlen] at h
    exact h
  rcases Nat.lt_or_ge 127 (n.findSlot key) with hgt | hle2
  · rw [if_pos hgt]
    dsimp only [LeafNode.split]
    rw [if_pos (show n.findSlot key > n.count / 2 by omega)]
    dsimp only
    simp [LeafNode.count, List.length_take, List.length_drop, List.length_append,
      hlen, h127]
    omega
  · rw [if_neg (by omega)]
    dsimp only [LeafNode.split]
    rw [if_neg (show ¬ n.findSlot key > n.count / 2 by omega)]
    dsimp only
    simp [LeafNode.count, List.length_drop, hlen, h127]

lemma inner_split_count_left (n : InnerNode) (key newval : Nat)
    (hfull : n.count = 255) :
    (n.split key newval).2.1.count =
      if n.findSlot key > 128 then 127 else 129 := by
  have hlen : n.keys.length = 255 := hfull
  have h128 : (n.count + 1) / 2 = 128 := by rw [hfull]
  have hle : n.findSlot key ≤ 255 := by
    have h := findSlotInner_le n.keys key
    rw [hlen] at h
    exact h
  rcases Nat.lt_or_ge 128 (n.findSlot key) with hgt | hle2
  · rw [if_pos hgt]
    dsimp only [InnerNode.split]
    rw [if_pos (show n.findSlot key > (n.count + 1) / 2 by omega)]
    dsimp only
    simp [InnerNode.count, List.length_take, hlen, h128]
  · rw [if_neg (by omega)]
    dsimp only [InnerNode.split]
    rw [if_neg (show ¬ n.findSlot key > (n.count + 1) / 2 by omega)]
    dsimp only
    simp [InnerNode.count, List.length_take, List.length_drop, hlen, h128]
    omega

lemma inner_split_count_right (n : InnerNode) (key newval : Nat)
    (hfull : n.count = 255) :
    (n.split key newval).2.2.count =
      if n.findSlot key > 128 then 128 else 126 := by
  have hlen : n.keys.length = 255 := hfull
  have h128 : (n.count + 1) / 2 = 128 := by rw [hfull]
  have hle : n.findSlot key ≤ 255 := by
    have h := findSlotInner_le n.keys key
    rw [hlen] at h
    exact h
  rcases Nat.lt_or_ge 128 (n.findSlot key) with hgt | hle2
  · rw [if_pos hgt]
    dsimp only [InnerNode.split]
    rw [if_pos (show n.findSlot key > (n.count + 1) / 2 by omega)]
    dsimp only
    simp [InnerNode.count, List.length_take, List.length_drop, List.length_append,
      hlen, h128]
    omega
  · rw [if_neg (by omega)]
    dsimp only [InnerNode.split]
    rw [if_neg (show ¬ n.findSlot key > (n.count + 1) / 2 by omega)]
    dsimp only
    simp [InnerNode.count, List.length_drop, hlen, h128]

lemma mem_take_getD {ks : List Nat} {a x : Nat} (h : x ∈ ks.take a) :
    ∃ j, j < a ∧ j < ks.length ∧ x = ks.getD j 0 := by
  obtain ⟨j, hj, hx⟩ := List.mem_iff_getElem.1 h
  have hj' := hj
  rw [List.length_take] at hj'
  refine ⟨j, by omega, by omega, ?_⟩
  rw [List.getD_eq_getElem ks 0 (by omega), ← hx, List.getElem_take]

lemma mem_drop_getD {ks : List Nat} {b x : Nat} (h : x ∈ ks.drop b) :
    ∃ j, b + j < ks.length ∧ x = ks.getD (b + j) 0 := by
  obtain ⟨j, hj, hx⟩ := List.mem_iff_getElem.1 h
  have hj' := hj
  rw [List.length_drop] at hj'
  refine ⟨j, by omega, ?_⟩
  rw [List.getD_eq_getElem ks 0 (by omega), ← hx, List.getElem_drop]

lemma mem_take_drop_getD {ks : List Nat} {a b x : Nat} (h : x ∈ (ks.drop b).take a) :
    ∃ j, j < a ∧ b + j < ks.length ∧ x = ks.getD (b + j) 0 := by
  obtain ⟨j, hj1, hj2, hx⟩ := mem_take_getD h
  rw [List.length_drop] at hj2
  obtain ⟨j', hj', hx'⟩ := mem_drop_getD (h := List.mem_of_mem_take h)
  refine ⟨j, hj1, by omega, ?_⟩
  rw [hx, List.getD_eq_getD_get?, List.getD_eq_getD_get?]
  rw [List.get?_eq_getElem?, List.get?_eq_getElem?, List.getElem?_drop]

lemma findSlotInner_gt_elem_lt {ks : List Nat} {key j : Nat}
    (hs : List.Pairwise (· < ·) ks) (h : j + 1 < findSlotInner ks key)
    (hj : j < ks.length) : ks.getD j 0 < key := by
  rcases hb : bsearch ks key with i | i
  · have hfs : findSlotInner ks key = i := by unfold findSlotInner; rw [hb]
    rw [hfs] at h
    exact (bsearch_err hs hb).2.1 j (by omega)
  · have hfs : findSlotInner ks key = i + 1 := by unfold findSlotInner; rw [hb]
    rw [hfs] at h
    obtain ⟨hik, hil⟩ := bsearch_ok hs hb
    rw [← hik]
    exact pairwise_getD_lt hs (by omega) hil

lemma findSlotInner_le_elem_gt {ks : List Nat} {key j : Nat}
    (hs : List.Pairwise (· < ·) ks) (h : findSlotInner ks key ≤ j)
    (hj : j < ks.length) : key < ks.getD j 0 := by
  rcases hb : bsearch ks key with i | i
  · have hfs : findSlotInner ks key = i := by unfold findSlotInner; rw [hb]
    rw [hfs] at h
    exact (bsearch_err hs hb).2.2 j h hj
  · have hfs : findSlotInner ks key = i + 1 := by unfold findSlotInner; rw [hb]
    rw [hfs] at h
    obtain ⟨hik, hil⟩ := bsearch_ok hs hb
    rw [← hik]
    exact pairwise_getD_lt hs (by omega) hj

/-- C1: inner split is move-up.  For a full, strictly sorted inner node
the promoted separator returned through the `key` out-parameter occurs in
neither half, and both halves keep one more child than keys. -/
theorem C1_inner_split_move_up (n : InnerNode) (key newval : Nat)
    (hfull : n.count = 255) (hch : n.children.length = 256)
    (hs : List.Pairwise (· < ·) n.keys) :
    (n.split key newval).1 ∉ (n.split key newval).2.1.keys ∧
    (n.split key newval).1 ∉ (n.split key newval).2.2.keys ∧
    (n.split key newval).2.1.content.length = (n.split key newval).2.1.keys.length + 1 ∧
    (n.split key newval).2.2.content.length = (n.split key newval).2.2.keys.length + 1 := by
  have hlen : n.keys.length = 255 := hfull
  have h128 : (n.count + 1) / 2 = 128 := by rw [hfull]
  have hle : n.findSlot key ≤ 255 := by
    have h := findSlotInner_le n.keys key
    rw [hlen] at h
    exact h
  have hfseq : n.findSlot key = findSlotInner n.keys key := rfl
  rcases Nat.lt_or_ge 128 (n.findSlot key) with hgt | hle2
  · -- the incoming entry lands in the right half; `keys[127]` is promoted
    have h127 : n.keys.getD 127 0 < key :=
      findSlotInner_gt_elem_lt hs (by omega) (by omega)
    dsimp only [InnerNode.split]
    rw [if_pos (show n.findSlot key > (n.count + 1) / 2 by omega)]
    dsimp only [InnerNode.content]
    rw [h128, show (128 : Nat) - 1 = 127 by norm_num]
    refine ⟨?_, ?_, ?_, ?_⟩
    · intro hmem
      obtain ⟨j, hj1, hj2, hx⟩ := mem_take_getD hmem
      have := pairwise_getD_lt hs (show j < 127 by omega) (show 127 < n.keys.length by omega)
      omega
    · intro hmem
      rcases List.mem_append.1 hmem with hmem1 | hmem3
      · rcases List.mem_append.1 hmem1 with hmem1 | hmem2
        · obtain ⟨j, hj1, hj2, hx⟩ := mem_take_drop_getD hmem1
          have := pairwise_getD_lt hs (show 127 < 128 + j by omega) hj2
          omega
        · have hx : n.keys.getD 127 0 = key := by simpa using hmem2
          omega
      · obtain ⟨j, hj2, hx⟩ := mem_drop_getD hmem3
        have := pairwise_getD_lt hs
          (show 127 < n.findSlot key + j by omega) hj2
        omega
    · simp [List.length_take, hlen, hch]
    · simp [List.length_take, List.length_drop, hlen, hch]
      omega
  · -- the incoming entry lands in the left half; `keys[128]` is promoted
    have h128lt : key < n.keys.getD 128 0 :=
      findSlotInner_le_elem_gt hs (by omega) (by omega)
    have hfseq2 := hfseq
    dsimp only [InnerNode.split]
    rw [if_neg (show ¬ n.findSlot key > (n.count + 1) / 2 by omega)]
    dsimp only [InnerNode.content]
    rw [h128]
    refine ⟨?_, ?_, ?_, ?_⟩
    · intro hmem
      rcases List.mem_append.1 hmem with hmem1 | hmem3
      · rcases List.mem_append.1 hmem1 with hmem1 | hmem2
        · obtain ⟨j, hj1, hj2, hx⟩ := mem_take_getD hmem1
          have := pairwise_getD_lt hs (show j < 128 by omega) (show 128 < n.keys.length by omega)
          omega
        · have hx : n.keys.getD 128 0 = key := by simpa using hmem2
          omega
      · obtain ⟨j, hj1, hj2, hx⟩ := mem_take_drop_getD hmem3
        have := pairwise_getD_lt hs
          (show n.findSlot key + j < 128 by omega) (show 128 < n.keys.length by omega)
        omega
    · intro hmem
      obtain ⟨j, hj2, hx⟩ := mem_drop_getD hmem
      have := pairwise_getD_lt hs (show 128 < 128 + 1 + j by omega) hj2
      omega
    · simp [List.length_take, List.length_drop, List.length_append, hlen, hch]
      omega
    · simp [List.length_drop, hlen, hch]

/-- Witness for C1: a full inner node with keys `2, 4, ..., 510` and an
incoming key 509 landing in the right half. -/
theorem C1_inner_split_move_up_witness :
    ((InnerNode.mk ((List.range 255).map (fun j => 2 * j + 2))
        (List.range 256)).split 509 42).2.1.content.length =
      ((InnerNode.mk ((List.range 255).map (fun j => 2 * j + 2))
        (List.range 256)).split 509 42).2.1.keys.length + 1 :=
  (C1_inner_split_move_up
    (InnerNode.mk ((List.range 255).map (fun j => 2 * j + 2)) (List.range 256))
    509 42 (by rfl) (by rfl) (sortedLt_pairwise (by decide))).2.2.1

/-- C4 as amended: a split of a full node conserves the 256 entries
(the promoted separator counted for an inner node), neither half exceeds
255 entries, and each half's count lies between 126 and 129 — the inner
"add to self" branch produces 129 and 126, not the claimed 127..129. -/
theorem C4_split_count_conservation (lf : LeafNode) (innr : InnerNode)
    (k1 v1 t1 k2 v2 : Nat) (hlf : lf.count = 255) (hin : innr.count = 255) :
    ((lf.split k1 v1 t1).2.1.count + (lf.split k1 v1 t1).2.2.count = 256 ∧
      126 ≤ (lf.split k1 v1 t1).2.1.count ∧ (lf.split k1 v1 t1).2.1.count ≤ 129 ∧
      126 ≤ (lf.split k1 v1 t1).2.2.count ∧ (lf.split k1 v1 t1).2.2.count ≤ 129 ∧
      (lf.split k1 v1 t1).2.1.count ≤ 255 ∧ (lf.split k1 v1 t1).2.2.count ≤ 255) ∧
    ((innr.split k2 v2).2.1.count + (innr.split k2 v2).2.2.count + 1 = 256 ∧
      126 ≤ (innr.split k2 v2).2.1.count ∧ (innr.split k2 v2).2.1.count ≤ 129 ∧
      126 ≤ (innr.split k2 v2).2.2.count ∧ (innr.split k2 v2).2.2.count ≤ 129 ∧
      (innr.split k2 v2).2.1.count ≤ 255 ∧ (innr.split k2 v2).2.2.count ≤ 255) := by
  have l1 := leaf_split_count_left lf k1 v1 t1 hlf
  have l2 := leaf_split_count_right lf k1 v1 t1 hlf
  have i1 := inner_split_count_left innr k2 v2 hin
  have i2 := inner_split_count_right innr k2 v2 hin
  by_cases h1 : lf.findSlot k1 > 127 <;> by_cases h2 : innr.findSlot k2 > 128 <;>
    simp [h1, h2] at l1 l2 i1 i2 <;> omega

/-- Witness for C4 at a concrete full leaf and full inner node. -/
theorem C4_split_count_conservation_witness :
    ((LeafNode.mk ((List.range 255).map (fun j => 2 * j + 2))
        ((List.range 255).map (fun j => 3 * j)) 0).split 511 1 2).2.1.count +
      ((LeafNode.mk ((List.range 255).map (fun j => 2 * j + 2))
        ((List.range 255).map (fun j => 3 * j)) 0).split 511 1 2).2.2.count = 256 :=
  (C4_split_count_conservation
    (LeafNode.mk ((List.range 255).map (fun j => 2 * j + 2))
      ((List.range 255).map (fun j => 3 * j)) 0)
    (InnerNode.mk ((List.range 255).map (fun j => 2 * j + 2)) (List.range 256))
    511 1 2 509 42 (by rfl) (by rfl)).1.1

/-- Counterexample to C4 as stated: splitting a full inner node on an
incoming key below every separator leaves the right half with only 126
keys, outside the claimed range `127..129`. -/
theorem C4_counterexample :
    (InnerNode.mk ((List.range 255).map (fun j => 2 * j + 2))
        (List.range 256)).count = 255 ∧
    ((InnerNode.mk ((List.range 255).map (fun j => 2 * j + 2))
        (List.range 256)).split 1 999).2.2.count = 126 ∧
    ¬ (127 ≤ ((InnerNode.mk ((List.range 255).map (fun j => 2 * j + 2))
        (List.range 256)).split 1 999).2.2.count) := by
  refine ⟨by rfl, by rfl, ?_⟩
  intro h
  rw [show ((InnerNode.mk ((List.range 255).map (fun j => 2 * j + 2))
      (List.range 256)).split 1 999).2.2.count = 126 from rfl] at h
  omega

lemma leaf_insertIdx_count (n : LeafNode) (i k v : Nat) (h : i ≤ n.count) :
    (n.insertIdx i k v).count = n.count + 1 := by
  simp [LeafNode.insertIdx, LeafNode.count, List.length_take] at h ⊢
  omega

lemma inner_insertIdx_count (n : InnerNode) (i k v : Nat) (h : i ≤ n.count) :
    (n.insertIdx i k v).count = n.count + 1 := by
  simp [InnerNode.insertIdx, InnerNode.count, List.length_take] at h ⊢
  omega

lemma leaf_removeIdx_count (n : LeafNode) (i : Nat) (h : i < n.count) :
    ((n.removeIdx i).2).count = n.count - 1 := by
  simp [LeafNode.removeIdx, LeafNode.count, List.length_eraseIdx] at h ⊢
  omega

lemma inner_removeIdx_count (n : InnerNode) (i : Nat) (h : i < n.count) :
    ((n.removeIdx i).2).count = n.count - 1 := by
  simp [InnerNode.removeIdx, InnerNode.count, List.length_eraseIdx] at h ⊢
  omega

/-- C8: merging a right-hand sibling into a node sums the counts (plus
one for the separator pulled down into an inner node) and, for leaves,
takes over the sibling's `next` pointer. -/
theorem C8_merge_counts (lf sib : LeafNode) (pk : Nat)
    (innr sibi : InnerNode) (pki : Nat)
    (h1 : lf.count + sib.count ≤ 255)
    (h2 : lf.keys.getD 0 0 < sib.keys.getD 0 0)
    (h3 : innr.count + sibi.count + 1 ≤ 255)
    (h4 : innr.keys.getD 0 0 < sibi.keys.getD 0 0) :
    (lf.merge sib pk).count = lf.count + sib.count ∧
    (lf.merge sib pk).next = sib.next ∧
    (innr.merge sibi pki).count = innr.count + sibi.count + 1 := by
  refine ⟨?_, rfl, ?_⟩
  · simp [LeafNode.merge, LeafNode.count]
  · simp [InnerNode.merge, InnerNode.count]
    omega

/-- Witness for C8 on small concrete nodes. -/
theorem C8_merge_counts_witness :
    ((LeafNode.mk [1, 2] [10, 20] 5).merge (LeafNode.mk [3, 4] [30, 40] 9) 3).count = 4 ∧
    ((LeafNode.mk [1, 2] [10, 20] 5).merge (LeafNode.mk [3, 4] [30, 40] 9) 3).next = 9 ∧
    ((InnerNode.mk [1] [7, 8]).merge (InnerNode.mk [5] [9, 10]) 3).count = 3 := by
  have h := C8_merge_counts (LeafNode.mk [1, 2] [10, 20] 5)
    (LeafNode.mk [3, 4] [30, 40] 9) 3 (InnerNode.mk [1] [7, 8])
    (InnerNode.mk [5] [9, 10]) 3 (by decide) (by decide) (by decide) (by decide)
  exact ⟨h.1, h.2.1, h.2.2⟩

/-- C3: the overridden `InnerNode::remove` compares `keys()[i]` (one slot
to the right of an exact match, because inner `find_slot` answers
`match + 1`) against the key, so on a sorted inner node it can never take
the removing branch: at the failing input it returns `None` and leaves
the node unchanged although separator 1 is present, and in general every
non-panicking call returns `None`.  The leaf side behaves as claimed. -/
theorem C3_inner_remove_never_hits :
    (InnerNode.mk [1, 2] [10, 11, 12]).remove 1 =
      some (none, InnerNode.mk [1, 2] [10, 11, 12]) ∧
    (LeafNode.mk [1, 2] [10, 20] 0).remove 1 = (some 10, LeafNode.mk [2] [20] 0) ∧
    (∀ (n : InnerNode) (key : Nat), List.Pairwise (· < ·) n.keys →
      ∀ p, n.remove key = some p → p.1 = none) := by
  refine ⟨by decide, by decide, ?_⟩
  intro n key hs p hp
  dsimp only [InnerNode.remove] at hp
  rcases hg : n.keys.get? (n.findSlot key) with _ | k
  · rw [hg] at hp
    exact absurd hp (by simp)
  · rw [hg] at hp
    have hgd : n.keys.getD (n.findSlot key) 0 = k ∧ n.findSlot key < n.keys.length := by
      constructor
      · rw [List.getD_eq_getD_get?, hg]
        rfl
      · by_contra hlen
        rw [List.get?_eq_getElem?, List.getElem?_eq_none (by omega)] at hg
        exact absurd hg (by simp)
    dsimp only at hp
    by_cases hk : k = key
    · exfalso
      subst hk
      rcases hb : bsearch n.keys k with i | i
      · have hfs : n.findSlot k = i := by
          rw [InnerNode.findSlot]
          unfold findSlotInner
          rw [hb]
        obtain ⟨hle, hlo, hhi⟩ := bsearch_err hs hb
        have := hhi (n.findSlot k) (by omega) hgd.2
        omega
      · have hfs : n.findSlot k = i + 1 := by
          rw [InnerNode.findSlot]
          unfold findSlotInner
          rw [hb]
        obtain ⟨hik, hil⟩ := bsearch_ok hs hb
        have hlt := pairwise_getD_lt hs (show i < i + 1 by omega) (hfs ▸ hgd.2)
        rw [hik, ← hfs] at hlt
        omega
    · rw [if_neg hk] at hp
      have hpe := Option.some.inj hp
      rw [← hpe]

/-- Witness for C3's universally quantified part at a concrete inner node. -/
theorem C3_inner_remove_never_hits_witness :
    ((InnerNode.mk [3, 6] [1, 2, 4]).remove 3 =
      some (none, InnerNode.mk [3, 6] [1, 2, 4])) ∧
    ((none, InnerNode.mk [3, 6] [1, 2, 4]) : Option Nat × InnerNode).1 = none :=
  ⟨by decide,
   C3_inner_remove_never_hits.2.2 (InnerNode.mk [3, 6] [1, 2, 4]) 3
     (sortedLt_pairwise (by decide)) (none, InnerNode.mk [3, 6] [1, 2, 4])
     (by decide)⟩

/-- C10: `InnerNode::remove` is not in-bounds on the live prefix: for a
key above every separator `find_slot` answers `count` and the code
indexes `keys()[count]`, a bounds-check panic (modelled by `none`); this
holds at the concrete failing input and for every sorted inner node whose
keys all lie below the probed key. -/
theorem C10_inner_remove_oob :
    (InnerNode.mk [5] [1, 2]).findSlot 7 = 1 ∧
    (InnerNode.mk [5] [1, 2]).count = 1 ∧
    (InnerNode.mk [5] [1, 2]).remove 7 = none ∧
    (∀ (n : InnerNode) (key : Nat), List.Pairwise (· < ·) n.keys →
      (∀ x ∈ n.keys, x < key) → n.remove key = none) := by
  refine ⟨by decide, by decide, by decide, ?_⟩
  intro n key hs hall
  have hmem : key ∉ n.keys := by
    intro hmem
    have := hall key hmem
    omega
  obtain ⟨i, hb⟩ := bsearch_miss hs hmem
  obtain ⟨hle, hlo, hhi⟩ := bsearch_err hs hb
  have hfs : n.findSlot key = i := by
    rw [InnerNode.findSlot]
    unfold findSlotInner
    rw [hb]
  have hil : i = n.keys.length := by
    by_contra hne
    have hlt : i < n.keys.length := by omega
    have h1 := hhi i le_rfl hlt
    have h2 := hall (n.keys.getD i 0)
      (by rw [List.getD_eq_getElem n.keys 0 hlt]; exact List.getElem_mem hlt)
    omega
  dsimp only [InnerNode.remove]
  rw [hfs, hil, List.get?_eq_getElem?, List.getElem?_eq_none le_rfl]

/-- Witness for C10's universally quantified part at a concrete node. -/
theorem C10_inner_remove_oob_witness :
    (InnerNode.mk [3, 6] [1, 2, 4]).remove 9 = none :=
  C10_inner_remove_oob.2.2.2 (InnerNode.mk [3, 6] [1, 2, 4]) 9
    (sortedLt_pairwise (by decide)) (by decide)

/-- Counterexample to C7 as stated: a leaf with a single key borrowing
from a 128-entry right sibling satisfies the stated preconditions, yet
ends with count 2, far below the claimed 127. -/
theorem C7_counterexample :
    (LeafNode.mk [1] [10] 0).count ≤ 127 ∧
    ¬ ((LeafNode.mk ((List.range 128).map (fun j => j + 10))
        (List.range 128) 3).count ≤ 127) ∧
    ((LeafNode.mk [1] [10] 0).borrow (InnerNode.mk [5] [0, 0]) 0
        (LeafNode.mk ((List.range 128).map (fun j => j + 10))
          (List.range 128) 3) true).1.count = 2 ∧
    ¬ (127 ≤ ((LeafNode.mk [1] [10] 0).borrow (InnerNode.mk [5] [0, 0]) 0
        (LeafNode.mk ((List.range 128).map (fun j => j + 10))
          (List.range 128) 3) true).1.count) := by
  exact ⟨by decide, by decide, by rfl, by decide⟩

/-- C7 as amended: borrowing moves exactly one entry, so the receiver
ends with `old + 1` entries (at least 127 only when it started at its
127 minimum), the donor keeps at least 127, and the two counts sum to
their pre-call total, for both node kinds. -/
theorem C7_borrow_counts (lf sib : LeafNode) (p : InnerNode) (slot : Nat)
    (isR : Bool) (innr sibi : InnerNode) (p2 : InnerNode) (slot2 : Nat)
    (isR2 : Bool) (h1 : lf.count ≤ 127) (h2 : 128 ≤ sib.count)
    (h3 : innr.count ≤ 127) (h4 : 128 ≤ sibi.count) :
    ((lf.borrow p slot sib isR).1.count = lf.count + 1 ∧
     (lf.borrow p slot sib isR).2.2.count = sib.count - 1 ∧
     127 ≤ (lf.borrow p slot sib isR).2.2.count ∧
     (lf.borrow p slot sib isR).1.count + (lf.borrow p slot sib isR).2.2.count
       = lf.count + sib.count) ∧
    ((innr.borrow p2 slot2 sibi isR2).1.count = innr.count + 1 ∧
     (innr.borrow p2 slot2 sibi isR2).2.2.count = sibi.count - 1 ∧
     127 ≤ (innr.borrow p2 slot2 sibi isR2).2.2.count ∧
     (innr.borrow p2 slot2 sibi isR2).1.count
       + (innr.borrow p2 slot2 sibi isR2).2.2.count
       = innr.count + sibi.count) := by
  constructor
  · cases isR
    · simp only [LeafNode.borrow, Bool.false_eq_true, if_false]
      have hc1 := leaf_removeIdx_count sib (sib.count - 1) (by omega)
      have hc2 := leaf_insertIdx_count lf 0
        ((sib.removeIdx (sib.count - 1)).1.1)
        ((sib.removeIdx (sib.count - 1)).1.2) (Nat.zero_le _)
      exact ⟨hc2, hc1, by omega, by omega⟩
    · simp only [LeafNode.borrow, if_true]
      have hc1 := leaf_removeIdx_count sib 0 (by omega)
      have hc2 := leaf_insertIdx_count lf lf.count
        ((sib.removeIdx 0).1.1) ((sib.removeIdx 0).1.2) le_rfl
      exact ⟨hc2, hc1, by omega, by omega⟩
  · cases isR2
    · simp only [InnerNode.borrow, Bool.false_eq_true, if_false]
      have hc1 := inner_removeIdx_count sibi (sibi.count - 1) (by omega)
      have hc2 := inner_insertIdx_count
        (InnerNode.mk innr.keys
          (innr.children.set 0 ((sibi.removeIdx (sibi.count - 1)).1.2)))
        0 (p2.keys.getD (slot2 - 1) 0)
        (innr.children.getD 0 0) (Nat.zero_le _)
      have he : (InnerNode.mk innr.keys
          (innr.children.set 0 ((sibi.removeIdx (sibi.count - 1)).1.2))).count
          = innr.count := rfl
      exact ⟨by rw [hc2, he], hc1, by omega, by omega⟩
    · simp only [InnerNode.borrow, if_true]
      have hc1 := inner_removeIdx_count sibi 0 (by omega)
      have hc2 := inner_insertIdx_count innr innr.count
        (p2.keys.getD slot2 0) (((sibi.removeIdx 0).2).children.getD 0 0) le_rfl
      have he : (InnerNode.mk ((sibi.removeIdx 0).2).keys
          (((sibi.removeIdx 0).2).children.set 0 ((sibi.removeIdx 0).1.2))).count
          = ((sibi.removeIdx 0).2).count := rfl
      exact ⟨hc2, by rw [he, hc1], by rw [he]; omega, by rw [he]; omega⟩

/-- Witness for C7 at concrete nodes: a 127-key leaf borrowing from a
128-key right sibling ends at 128, the donor at 127. -/
theorem C7_borrow_counts_witness :
    ((LeafNode.mk ((List.range 127).map (fun j => j + 1))
        (List.range 127) 0).borrow (InnerNode.mk [200] [0, 0]) 0
        (LeafNode.mk ((List.range 128).map (fun j => j + 200))
          (List.range 128) 3) true).1.count = 128 ∧
    127 ≤ ((LeafNode.mk ((List.range 127).map (fun j => j + 1))
        (List.range 127) 0).borrow (InnerNode.mk [200] [0, 0]) 0
        (LeafNode.mk ((List.range 128).map (fun j => j + 200))
          (List.range 128) 3) true).2.2.count := by
  have h := C7_borrow_counts
    (LeafNode.mk ((List.range 127).map (fun j => j + 1)) (List.range 127) 0)
    (LeafNode.mk ((List.range 128).map (fun j => j + 200)) (List.range 128) 3)
    (InnerNode.mk [200] [0, 0]) 0 true
    (InnerNode.mk [1] [7, 8])
    (InnerNode.mk ((List.range 128).map (fun j => j + 10)) (List.range 129))
    (InnerNode.mk [5] [0, 0]) 0 true
    (by decide) (by decide) (by decide) (by decide)
  refine ⟨?_, h.1.2.2.1⟩
  rw [h.1.1]
  decide

lemma getD_mem {l : List Nat} {j : Nat} (hj : j < l.length) : l.getD j 0 ∈ l := by
  rw [List.getD_eq_getElem l 0 hj]
  exact List.getElem_mem hj

lemma pairwise_insert_slice {K : List Nat} {k i : Nat}
    (hs : List.Pairwise (· < ·) K) (hi : i ≤ K.length)
    (hlo : ∀ j, j < i → j < K.length → K.getD j 0 < k)
    (hhi : ∀ j, i ≤ j → j < K.length → k < K.getD j 0) :
    List.Pairwise (· < ·) (K.take i ++ [k] ++ K.drop i) := by
  refine List.pairwise_append.2 ⟨?_, hs.sublist (List.drop_sublist i K), ?_⟩
  · refine List.pairwise_append.2
      ⟨hs.sublist (List.take_sublist i K), List.pairwise_singleton _ _, ?_⟩
    intro a ha b hb
    obtain ⟨j, hj1, hj2, hx⟩ := mem_take_getD ha
    have hbk : b = k := by simpa using hb
    rw [hx, hbk]
    exact hlo j hj1 hj2
  · intro a ha b hb
    obtain ⟨j', hj'⟩ := mem_drop_getD hb
    rcases List.mem_append.1 ha with hta | hka
    · obtain ⟨j, hj1, hj2, hx⟩ := mem_take_getD hta
      rw [hx, hj'.2]
      exact pairwise_getD_lt hs (by omega) hj'.1
    · have hak : a = k := by simpa using hka
      rw [hak, hj'.2]
      exact hhi (i + j') (by omega) hj'.1

lemma pairwise_set_of {l : List Nat} (hs : List.Pairwise (· < ·) l) {i x : Nat}
    (hlo : ∀ j, j < i → j < l.length → l.getD j 0 < x)
    (hhi : ∀ j, i < j → j < l.length → x < l.getD j 0) :
    List.Pairwise (· < ·) (l.set i x) := by
  rw [List.pairwise_iff_getElem] at hs ⊢
  intro a b ha hb hab
  rw [List.length_set] at ha hb
  rw [List.getElem_set, List.getElem_set]
  by_cases hia : i = a
  · rw [if_pos hia]
    rw [if_neg (by omega)]
    have := hhi b (by omega) hb
    rw [List.getD_eq_getElem l 0 hb] at this
    exact this
  · rw [if_neg hia]
    by_cases hib : i = b
    · rw [if_pos hib]
      have := hlo a (by omega) ha
      rw [List.getD_eq_getElem l 0 ha] at this
      exact this
    · rw [if_neg hib]
      exact hs a b ha hb hab

lemma fresh_slot_facts {K : List Nat} {k : Nat}
    (hs : List.Pairwise (· < ·) K) (hf : k ∉ K) :
    findSlotLeaf K k ≤ K.length ∧
    (∀ j, j < findSlotLeaf K k → j < K.length → K.getD j 0 < k) ∧
    (∀ j, findSlotLeaf K k ≤ j → j < K.length → k < K.getD j 0) := by
  obtain ⟨hle, hiff⟩ := findSlotLeaf_miss hs hf
  refine ⟨hle, fun j hj hjl => (hiff j hjl).2 hj, fun j hj hjl => ?_⟩
  have hne : K.getD j 0 ≠ k := fun he => hf (he ▸ getD_mem hjl)
  have h1 : ¬ K.getD j 0 < k := fun hlt => by
    have := (hiff j hjl).1 hlt
    omega
  omega

lemma pairwise_append_lt {K L : List Nat}
    (h1 : List.Pairwise (· < ·) K) (h2 : List.Pairwise (· < ·) L)
    (h12 : ∀ x ∈ K, ∀ y ∈ L, x < y) :
    List.Pairwise (· < ·) (K ++ L) :=
  List.pairwise_append.2 ⟨h1, h2, h12⟩

lemma pairwise_split_right_slice {K : List Nat} {k r i : Nat}
    (hs : List.Pairwise (· < ·) K) (hil : i ≤ K.length)
    (hlo : ∀ j, j < i → j < K.length → K.getD j 0 < k)
    (hhi : ∀ j, i ≤ j → j < K.length → k < K.getD j 0) :
    List.Pairwise (· < ·) ((K.drop r).take (i - r) ++ [k] ++ K.drop i) := by
  refine List.pairwise_append.2 ⟨?_, hs.sublist (List.drop_sublist i K), ?_⟩
  · refine List.pairwise_append.2
      ⟨hs.sublist ((List.take_sublist _ _).trans (List.drop_sublist r K)),
       List.pairwise_singleton _ _, ?_⟩
    intro a ha b hb
    obtain ⟨j, hj1, hj2, hx⟩ := mem_take_drop_getD ha
    have hbk : b = k := by simpa using hb
    rw [hx, hbk]
    exact hlo (r + j) (by omega) hj2
  · intro a ha b hb
    obtain ⟨j', hj'⟩ := mem_drop_getD hb
    rcases List.mem_append.1 ha with hta | hka
    · obtain ⟨j, hj1, hj2, hx⟩ := mem_take_drop_getD hta
      rw [hx, hj'.2]
      exact pairwise_getD_lt hs (by omega) hj'.1
    · have hak : a = k := by simpa using hka
      rw [hak, hj'.2]
      exact hhi (i + j') (by omega) hj'.1

lemma pairwise_split_left_slice {K : List Nat} {k r i : Nat}
    (hs : List.Pairwise (· < ·) K)
    (hlo : ∀ j, j < i → j < K.length → K.getD j 0 < k)
    (hhi : ∀ j, i ≤ j → j < K.length → k < K.getD j 0) :
    List.Pairwise (· < ·) (K.take i ++ [k] ++ (K.drop i).take (r - i)) := by
  refine List.pairwise_append.2
    ⟨?_, hs.sublist ((List.take_sublist _ _).trans (List.drop_sublist i K)), ?_⟩
  · refine List.pairwise_append.2
      ⟨hs.sublist (List.take_sublist i K), List.pairwise_singleton _ _, ?_⟩
    intro a ha b hb
    obtain ⟨j, hj1, hj2, hx⟩ := mem_take_getD ha
    have hbk : b = k := by simpa using hb
    rw [hx, hbk]
    exact hlo j hj1 hj2
  · intro a ha b hb
    obtain ⟨j', hj'1, hj'2, hx'⟩ := mem_take_drop_getD hb
    rcases List.mem_append.1 ha with hta | hka
    · obtain ⟨j, hj1, hj2, hx⟩ := mem_take_getD hta
      rw [hx, hx']
      exact pairwise_getD_lt hs (by omega) hj'2
    · have hak : a = k := by simpa using hka
      rw [hak, hx']
      exact hhi (i + j') (by omega) hj'2

lemma leaf_insert_pairwise (n : LeafNode) (k v : Nat)
    (hs : List.Pairwise (· < ·) n.keys) (hf : k ∉ n.keys) :
    List.Pairwise (· < ·) (n.insert k v).keys := by
  obtain ⟨hle, hlo, hhi⟩ := fresh_slot_facts hs hf
  exact pairwise_insert_slice hs hle hlo hhi

lemma inner_insert_pairwise (n : InnerNode) (k v : Nat)
    (hs : List.Pairwise (· < ·) n.keys) (hf : k ∉ n.keys) :
    List.Pairwise (· < ·) (n.insert k v).keys := by
  obtain ⟨hle, hlo, hhi⟩ := fresh_slot_facts hs hf
  have hfs : findSlotInner n.keys k = findSlotLeaf n.keys k := findSlotInner_miss hs hf
  show List.Pairwise (· < ·)
    (n.keys.take (findSlotInner n.keys k) ++ [k] ++ n.keys.drop (findSlotInner n.keys k))
  rw [hfs]
  exact pairwise_insert_slice hs hle hlo hhi

lemma leaf_remove_pairwise (n : LeafNode) (k : Nat)
    (hs : List.Pairwise (· < ·) n.keys) :
    List.Pairwise (· < ·) ((n.remove k).2).keys := by
  dsimp only [LeafNode.remove]
  by_cases hg : n.keys.get? (n.findSlot k) = some k
  · rw [if_pos hg]
    exact hs.sublist (List.eraseIdx_sublist _ _)
  · rw [if_neg hg]
    exact hs

lemma InnerNode.remove_some_eq (n : InnerNode) (key : Nat)
    (hs : List.Pairwise (· < ·) n.keys) {p : Option Nat × InnerNode}
    (hp : n.remove key = some p) : p = (none, n) := by
  dsimp only [InnerNode.remove] at hp
  rcases hg : n.keys.get? (n.findSlot key) with _ | k
  · rw [hg] at hp
    exact absurd hp (by simp)
  · rw [hg] at hp
    have hgd : n.keys.getD (n.findSlot key) 0 = k ∧ n.findSlot key < n.keys.length := by
      constructor
      · rw [List.getD_eq_getD_get?, hg]
        rfl
      · by_contra hlen
        rw [List.get?_eq_getElem?, List.getElem?_eq_none (by omega)] at hg
        exact absurd hg (by simp)
    dsimp only at hp
    by_cases hk : k = key
    · exfalso
      subst hk
      rcases hb : bsearch n.keys k with i | i
      · have hfs : n.findSlot k = i := by
          rw [InnerNode.findSlot]
          unfold findSlotInner
          rw [hb]
        obtain ⟨hle, hlo, hhi⟩ := bsearch_err hs hb
        have := hhi (n.findSlot k) (by omega) hgd.2
        omega
      · have hfs : n.findSlot k = i + 1 := by
          rw [InnerNode.findSlot]
          unfold findSlotInner
          rw [hb]
        obtain ⟨hik, hil⟩ := bsearch_ok hs hb
        have hlt := pairwise_getD_lt hs (show i < i + 1 by omega) (hfs ▸ hgd.2)
        rw [hik, ← hfs] at hlt
        omega
    · rw [if_neg hk] at hp
      exact (Option.some.inj hp).symm

lemma inner_remove_pairwise (n : InnerNode) (k : Nat)
    (hs : List.Pairwise (· < ·) n.keys) {p : Option Nat × InnerNode}
    (hp : n.remove k = some p) : List.Pairwise (· < ·) p.2.keys := by
  rw [InnerNode.remove_some_eq n k hs hp]
  exact hs

lemma leaf_split_pairwise (n : LeafNode) (key newval targetId : Nat)
    (hfull : n.count = 255) (hs : List.Pairwise (· < ·) n.keys)
    (hf : key ∉ n.keys) :
    List.Pairwise (· < ·) (n.split key newval targetId).2.1.keys ∧
    List.Pairwise (· < ·) (n.split key newval targetId).2.2.keys := by
  obtain ⟨hle, hlo, hhi⟩ := fresh_slot_facts hs hf
  dsimp only [LeafNode.split]
  split
  · exact ⟨hs.sublist (List.take_sublist _ _),
      pairwise_split_right_slice hs hle hlo hhi⟩
  · exact ⟨pairwise_split_left_slice hs hlo hhi,
      hs.sublist (List.drop_sublist _ _)⟩

lemma inner_split_pairwise (n : InnerNode) (key newval : Nat)
    (hfull : n.count = 255) (hs : List.Pairwise (· < ·) n.keys)
    (hf : key ∉ n.keys) :
    List.Pairwise (· < ·) (n.split key newval).2.1.keys ∧
    List.Pairwise (· < ·) (n.split key newval).2.2.keys := by
  obtain ⟨hle, hlo', hhi'⟩ := fresh_slot_facts hs hf
  have hfs : findSlotInner n.keys key = findSlotLeaf n.keys key :=
    findSlotInner_miss hs hf
  have hlo : ∀ j, j < findSlotInner n.keys key → j < n.keys.length →
      n.keys.getD j 0 < key := by
    rw [hfs]
    exact hlo'
  have hhi : ∀ j, findSlotInner n.keys key ≤ j → j < n.keys.length →
      key < n.keys.getD j 0 := by
    rw [hfs]
    exact hhi'
  have hle2 : findSlotInner n.keys key ≤ n.keys.length := by
    rw [hfs]
    exact hle
  dsimp only [InnerNode.split]
  split
  · exact ⟨hs.sublist (List.take_sublist _ _),
      pairwise_split_right_slice hs hle2 hlo hhi⟩
  · exact ⟨pairwise_split_left_slice hs hlo hhi,
      hs.sublist (List.drop_sublist _ _)⟩

lemma leaf_merge_pairwise (n m : LeafNode) (pk : Nat)
    (h1 : List.Pairwise (· < ·) n.keys) (h2 : List.Pairwise (· < ·) m.keys)
    (h12 : ∀ x ∈ n.keys, ∀ y ∈ m.keys, x < y) :
    List.Pairwise (· < ·) (n.merge m pk).keys :=
  pairwise_append_lt h1 h2 h12

lemma inner_merge_pairwise (n m : InnerNode) (pk : Nat)
    (h1 : List.Pairwise (· < ·) n.keys) (h2 : List.Pairwise (· < ·) m.keys)
    (h1k : ∀ x ∈ n.keys, x < pk) (h2k : ∀ y ∈ m.keys, pk < y) :
    List.Pairwise (· < ·) (n.merge m pk).keys := by
  refine List.pairwise_append.2 ⟨?_, h2, ?_⟩
  · refine List.pairwise_append.2 ⟨h1, List.pairwise_singleton _ _, ?_⟩
    intro a ha b hb
    have hbk : b = pk := by simpa using hb
    rw [hbk]
    exact h1k a ha
  · intro a ha b hb
    rcases List.mem_append.1 ha with hna | hka
    · exact lt_trans (h1k a hna) (h2k b hb)
    · have hak : a = pk := by simpa using hka
      rw [hak]
      exact h2k b hb

lemma getD_eraseIdx_zero (l : List Nat) : (l.eraseIdx 0).getD 0 0 = l.getD 1 0 := by
  cases l <;> rfl

lemma leaf_borrow_right_pairwise (n m : LeafNode) (p : InnerNode) (slot : Nat)
    (hn : List.Pairwise (· < ·) n.keys) (hm : List.Pairwise (· < ·) m.keys)
    (hp : List.Pairwise (· < ·) p.keys)
    (hcross : ∀ x ∈ n.keys, x < m.keys.getD 0 0)
    (hplo : ∀ j, j < slot → j < p.keys.length →
      p.keys.getD j 0 < m.keys.getD 1 0)
    (hphi : ∀ j, slot < j → j < p.keys.length →
      m.keys.getD 1 0 < p.keys.getD j 0) :
    List.Pairwise (· < ·) (n.borrow p slot m true).1.keys ∧
    List.Pairwise (· < ·) (n.borrow p slot m true).2.1.keys ∧
    List.Pairwise (· < ·) (n.borrow p slot m true).2.2.keys := by
  simp only [LeafNode.borrow, if_true]
  refine ⟨?_, ?_, ?_⟩
  · refine pairwise_insert_slice hn le_rfl ?_ ?_
    · intro j hj hjl
      exact hcross _ (getD_mem hjl)
    · intro j hj hjl
      have hcl : n.count = n.keys.length := rfl
      omega
  · have hval : ((m.removeIdx 0).2).keys.getD 0 0 = m.keys.getD 1 0 :=
      getD_eraseIdx_zero m.keys
    rw [hval]
    exact pairwise_set_of hp hplo hphi
  · exact hm.sublist (List.eraseIdx_sublist _ _)

lemma leaf_borrow_left_pairwise (n m : LeafNode) (p : InnerNode) (slot : Nat)
    (hn : List.Pairwise (· < ·) n.keys) (hm : List.Pairwise (· < ·) m.keys)
    (hp : List.Pairwise (· < ·) p.keys)
    (hcross : ∀ x ∈ n.keys, m.keys.getD (m.count - 1) 0 < x)
    (hplo : ∀ j, j < slot - 1 → j < p.keys.length →
      p.keys.getD j 0 < m.keys.getD (m.count - 1) 0)
    (hphi : ∀ j, slot - 1 < j → j < p.keys.length →
      m.keys.getD (m.count - 1) 0 < p.keys.getD j 0) :
    List.Pairwise (· < ·) (n.borrow p slot m false).1.keys ∧
    List.Pairwise (· < ·) (n.borrow p slot m false).2.1.keys ∧
    List.Pairwise (· < ·) (n.borrow p slot m false).2.2.keys := by
  simp only [LeafNode.borrow, Bool.false_eq_true, if_false]
  refine ⟨?_, ?_, ?_⟩
  · refine pairwise_insert_slice hn (Nat.zero_le _) ?_ ?_
    · intro j hj hjl
      exact absurd hj (by omega)
    · intro j hj hjl
      exact hcross _ (getD_mem hjl)
  · exact pairwise_set_of hp hplo hphi
  · exact hm.sublist (List.eraseIdx_sublist _ _)

lemma inner_borrow_right_pairwise (n m p : InnerNode) (slot : Nat)
    (hn : List.Pairwise (· < ·) n.keys) (hm : List.Pairwise (· < ·) m.keys)
    (hp : List.Pairwise (· < ·) p.keys)
    (hcross : ∀ x ∈ n.keys, x < p.keys.getD slot 0)
    (hplo : ∀ j, j < slot → j < p.keys.length →
      p.keys.getD j 0 < m.keys.getD 0 0)
    (hphi : ∀ j, slot < j → j < p.keys.length →
      m.keys.getD 0 0 < p.keys.getD j 0) :
    List.Pairwise (· < ·) (n.borrow p slot m true).1.keys ∧
    List.Pairwise (· < ·) (n.borrow p slot m true).2.1.keys ∧
    List.Pairwise (· < ·) (n.borrow p slot m true).2.2.keys := by
  simp only [InnerNode.borrow, if_true]
  refine ⟨?_, ?_, ?_⟩
  · refine pairwise_insert_slice hn le_rfl ?_ ?_
    · intro j hj hjl
      exact hcross _ (getD_mem hjl)
    · intro j hj hjl
      have hcl : n.count = n.keys.length := rfl
      omega
  · exact pairwise_set_of hp hplo hphi
  · exact hm.sublist (List.eraseIdx_sublist _ _)

lemma inner_borrow_left_pairwise (n m p : InnerNode) (slot : Nat)
    (hn : List.Pairwise (· < ·) n.keys) (hm : List.Pairwise (· < ·) m.keys)
    (hp : List.Pairwise (· < ·) p.keys)
    (hcross : ∀ x ∈ n.keys, p.keys.getD (slot - 1) 0 < x)
    (hplo : ∀ j, j < slot - 1 → j < p.keys.length →
      p.keys.getD j 0 < m.keys.getD (m.count - 1) 0)
    (hphi : ∀ j, slot - 1 < j → j < p.keys.length →
      m.keys.getD (m.count - 1) 0 < p.keys.getD j 0) :
    List.Pairwise (· < ·) (n.borrow p slot m false).1.keys ∧
    List.Pairwise (· < ·) (n.borrow p slot m false).2.1.keys ∧
    List.Pairwise (· < ·) (n.borrow p slot m false).2.2.keys := by
  simp only [InnerNode.borrow, Bool.false_eq_true, if_false]
  refine ⟨?_, ?_, ?_⟩
  · refine pairwise_insert_slice hn (Nat.zero_le _) ?_ ?_
    · intro j hj hjl
      exact absurd hj (by omega)
    · intro j hj hjl
      exact hcross _ (getD_mem hjl)
  · exact pairwise_set_of hp hplo hphi
  · exact hm.sublist (List.eraseIdx_sublist _ _)

/-- Counterexample to C5 as stated: `merge`'s stated preconditions (first
keys ordered, combined count within capacity) are met by the sorted
leaves `[1, 5]` and `[3, 7]`, yet the merged key array `[1, 5, 3, 7]` is
not strictly increasing. -/
theorem C5_counterexample :
    List.Pairwise (· < ·) (LeafNode.mk [1, 5] [10, 20] 0).keys ∧
    List.Pairwise (· < ·) (LeafNode.mk [3, 7] [30, 40] 9).keys ∧
    (LeafNode.mk [1, 5] [10, 20] 0).keys.getD 0 0 <
      (LeafNode.mk [3, 7] [30, 40] 9).keys.getD 0 0 ∧
    (LeafNode.mk [1, 5] [10, 20] 0).count +
      (LeafNode.mk [3, 7] [30, 40] 9).count ≤ 255 ∧
    ¬ List.Pairwise (· < ·)
      (((LeafNode.mk [1, 5] [10, 20] 0).merge
        (LeafNode.mk [3, 7] [30, 40] 9) 3).keys) := by
  refine ⟨by decide, by decide, by decide, by decide, ?_⟩
  intro h
  have := List.pairwise_iff_getElem.1 h 1 2 (by decide) (by decide) (by decide)
  simp [LeafNode.merge] at this

/-- C5 as amended: each operation preserves strict sortedness of `keys()`
in every node it produces, under the stated preconditions strengthened by
the order-compatibility conditions the counterexample shows are needed:
inserted and split-incoming keys are not already present; `merge` demands
every key of `self` below every key of the sibling (inner: with
`parent_key` strictly between); `borrow` demands the rotated-in key
beyond all of the receiver's keys and the separator written into the
parent to fit strictly between its neighbours. -/
theorem C5_sortedness_per_op :
    (∀ (n : LeafNode) (k v : Nat), n.count < 255 →
      List.Pairwise (· < ·) n.keys → k ∉ n.keys →
      List.Pairwise (· < ·) (n.insert k v).keys) ∧
    (∀ (n : InnerNode) (k v : Nat), n.count < 255 →
      List.Pairwise (· < ·) n.keys → k ∉ n.keys →
      List.Pairwise (· < ·) (n.insert k v).keys) ∧
    (∀ (n : LeafNode) (k : Nat), List.Pairwise (· < ·) n.keys →
      List.Pairwise (· < ·) ((n.remove k).2).keys) ∧
    (∀ (n : InnerNode) (k : Nat) (p : Option Nat × InnerNode),
      List.Pairwise (· < ·) n.keys → n.remove k = some p →
      List.Pairwise (· < ·) p.2.keys) ∧
    (∀ (n : LeafNode) (k v t : Nat), n.count = 255 →
      List.Pairwise (· < ·) n.keys → k ∉ n.keys →
      List.Pairwise (· < ·) (n.split k v t).2.1.keys ∧
      List.Pairwise (· < ·) (n.split k v t).2.2.keys) ∧
    (∀ (n : InnerNode) (k v : Nat), n.count = 255 →
      List.Pairwise (· < ·) n.keys → k ∉ n.keys →
      List.Pairwise (· < ·) (n.split k v).2.1.keys ∧
      List.Pairwise (· < ·) (n.split k v).2.2.keys) ∧
    (∀ (n m : LeafNode) (pk : Nat), n.count + m.count ≤ 255 →
      List.Pairwise (· < ·) n.keys → List.Pairwise (· < ·) m.keys →
      (∀ x ∈ n.keys, ∀ y ∈ m.keys, x < y) →
      List.Pairwise (· < ·) (n.merge m pk).keys) ∧
    (∀ (n m : InnerNode) (pk : Nat), n.count + m.count + 1 ≤ 255 →
      List.Pairwise (· < ·) n.keys → List.Pairwise (· < ·) m.keys →
      (∀ x ∈ n.keys, x < pk) → (∀ y ∈ m.keys, pk < y) →
      List.Pairwise (· < ·) (n.merge m pk).keys) ∧
    (∀ (n m : LeafNode) (p : InnerNode) (slot : Nat),
      n.count ≤ 127 → 128 ≤ m.count →
      List.Pairwise (· < ·) n.keys → List.Pairwise (· < ·) m.keys →
      List.Pairwise (· < ·) p.keys →
      (∀ x ∈ n.keys, x < m.keys.getD 0 0) →
      (∀ j, j < slot → j < p.keys.length →
        p.keys.getD j 0 < m.keys.getD 1 0) →
      (∀ j, slot < j → j < p.keys.length →
        m.keys.getD 1 0 < p.keys.getD j 0) →
      List.Pairwise (· < ·) (n.borrow p slot m true).1.keys ∧
      List.Pairwise (· < ·) (n.borrow p slot m true).2.1.keys ∧
      List.Pairwise (· < ·) (n.borrow p slot m true).2.2.keys) ∧
    (∀ (n m : LeafNode) (p : InnerNode) (slot : Nat),
      n.count ≤ 127 → 128 ≤ m.count →
      List.Pairwise (· < ·) n.keys → List.Pairwise (· < ·) m.keys →
      List.Pairwise (· < ·) p.keys →
      (∀ x ∈ n.keys, m.keys.getD (m.count - 1) 0 < x) →
      (∀ j, j < slot - 1 → j < p.keys.length →
        p.keys.getD j 0 < m.keys.getD (m.count - 1) 0) →
      (∀ j, slot - 1 < j → j < p.keys.length →
        m.keys.getD (m.count - 1) 0 < p.keys.getD j 0) →
      List.Pairwise (· < ·) (n.borrow p slot m false).1.keys ∧
      List.Pairwise (· < ·) (n.borrow p slot m false).2.1.keys ∧
      List.Pairwise (· < ·) (n.borrow p slot m false).2.2.keys) ∧
    (∀ (n m p : InnerNode) (slot : Nat),
      n.count ≤ 127 → 128 ≤ m.count →
      List.Pairwise (· < ·) n.keys → List.Pairwise (· < ·) m.keys →
      List.Pairwise (· < ·) p.keys →
      (∀ x ∈ n.keys, x < p.keys.getD slot 0) →
      (∀ j, j < slot → j < p.keys.length →
        p.keys.getD j 0 < m.keys.getD 0 0) →
      (∀ j, slot < j → j < p.keys.length →
        m.keys.getD 0 0 < p.keys.getD j 0) →
      List.Pairwise (· < ·) (n.borrow p slot m true).1.keys ∧
      List.Pairwise (· < ·) (n.borrow p slot m true).2.1.keys ∧
      List.Pairwise (· < ·) (n.borrow p slot m true).2.2.keys) ∧
    (∀ (n m p : InnerNode) (slot : Nat),
      n.count ≤ 127 → 128 ≤ m.count →
      List.Pairwise (· < ·) n.keys → List.Pairwise (· < ·) m.keys →
      List.Pairwise (· < ·) p.keys →
      (∀ x ∈ n.keys, p.keys.getD (slot - 1) 0 < x) →
      (∀ j, j < slot - 1 → j < p.keys.length →
        p.keys.getD j 0 < m.keys.getD (m.count - 1) 0) →
      (∀ j, slot - 1 < j → j < p.keys.length →
        m.keys.getD (m.count - 1) 0 < p.keys.getD j 0) →
      List.Pairwise (· < ·) (n.borrow p slot m false).1.keys ∧
      List.Pairwise (· < ·) (n.borrow p slot m false).2.1.keys ∧
      List.Pairwise (· < ·) (n.borrow p slot m false).2.2.keys) := by
  refine ⟨fun n k v _ hs hf => leaf_insert_pairwise n k v hs hf,
    fun n k v _ hs hf => inner_insert_pairwise n k v hs hf,
    fun n k hs => leaf_remove_pairwise n k hs,
    fun n k p hs hp => inner_remove_pairwise n k hs hp,
    fun n k v t hfull hs hf => leaf_split_pairwise n k v t hfull hs hf,
    fun n k v hfull hs hf => inner_split_pairwise n k v hfull hs hf,
    fun n m pk _ h1 h2 h12 => leaf_merge_pairwise n m pk h1 h2 h12,
    fun n m pk _ h1 h2 h1k h2k => inner_merge_pairwise n m pk h1 h2 h1k h2k,
    fun n m p slot _ _ hn hm hp hc hl hh =>
      leaf_borrow_right_pairwise n m p slot hn hm hp hc hl hh,
    fun n m p slot _ _ hn hm hp hc hl hh =>
      leaf_borrow_left_pairwise n m p slot hn hm hp hc hl hh,
    fun n m p slot _ _ hn hm hp hc hl hh =>
      inner_borrow_right_pairwise n m p slot hn hm hp hc hl hh,
    fun n m p slot _ _ hn hm hp hc hl hh =>
      inner_borrow_left_pairwise n m p slot hn hm hp hc hl hh⟩

/-- Witness for C5 at concrete nodes: a fresh insert into a sorted leaf
and a properly ordered leaf merge keep the key arrays strictly sorted. -/
theorem C5_sortedness_per_op_witness :
    List.Pairwise (· < ·) ((LeafNode.mk [2, 4] [20, 40] 0).insert 3 30).keys ∧
    List.Pairwise (· < ·)
      (((LeafNode.mk [1, 2] [10, 20] 0).merge
        (LeafNode.mk [3, 4] [30, 40] 9) 3).keys) :=
  ⟨C5_sortedness_per_op.1 (LeafNode.mk [2, 4] [20, 40] 0) 3 30 (by decide)
    (by decide) (by decide),
   C5_sortedness_per_op.2.2.2.2.2.2.1 (LeafNode.mk [1, 2] [10, 20] 0)
    (LeafNode.mk [3, 4] [30, 40] 9) 3 (by decide) (by decide) (by decide)
    (by decide)⟩

lemma takeWhile_dropWhile_eq_take_drop {α : Type} (P : α → Bool) :
    ∀ (l : List α) (i : Nat), i ≤ l.length →
    (∀ j (hj : j < l.length), (P (l.get ⟨j, hj⟩) = true ↔ j < i)) →
    l.takeWhile P = l.take i ∧ l.dropWhile P = l.drop i
  | [], i, hi, _ => by
    have : i = 0 := by simpa using hi
    subst this
    exact ⟨rfl, rfl⟩
  | a :: t, 0, _, hp => by
    have ha : ¬ P a = true := by
      have := (hp 0 (by simp)).1
      simpa using this
    rw [List.takeWhile_cons, List.dropWhile_cons]
    rw [if_neg ha, if_neg ha]
    exact ⟨rfl, rfl⟩
  | a :: t, i + 1, hi, hp => by
    have ha : P a = true := (hp 0 (by simp)).2 (by omega)
    rw [List.takeWhile_cons, List.dropWhile_cons]
    rw [if_pos ha, if_pos ha]
    have hrec := takeWhile_dropWhile_eq_take_drop P t i (by simpa using hi)
      (fun j hj => by
        have := hp (j + 1) (by simpa using Nat.succ_lt_succ hj)
        simpa [Nat.succ_lt_succ_iff] using this)
    exact ⟨by rw [List.take_succ_cons, hrec.1], by rw [List.drop_succ_cons, hrec.2]⟩

lemma map_eraseIdx {α β : Type} (f : α → β) :
    ∀ (l : List α) (i : Nat), (l.eraseIdx i).map f = (l.map f).eraseIdx i
  | [], _ => by simp
  | _ :: _, 0 => by simp [List.eraseIdx]
  | a :: t, i + 1 => by
    simp only [List.eraseIdx, List.map_cons]
    rw [map_eraseIdx f t i]

lemma filter_ne_eq_eraseIdx :
    ∀ (m : List (Nat × Nat)) (i : Nat) (k : Nat),
    List.Pairwise (· < ·) (m.map Prod.fst) → (hi : i < m.length) →
    (m.get ⟨i, hi⟩).1 = k →
    m.filter (fun p => p.1 ≠ k) = m.eraseIdx i
  | [], i, k, _, hi, _ => by simp at hi
  | a :: t, 0, k, hs, hi, hk => by
    simp only [List.get] at hk
    rw [List.map_cons] at hs
    obtain ⟨hhead, htail⟩ := List.pairwise_cons.1 hs
    rw [List.filter_cons, List.eraseIdx]
    rw [if_neg (by simp [hk])]
    rw [List.filter_eq_self.2]
    intro p hp
    have hlt : a.1 < p.1 := hhead p.1 (List.mem_map_of_mem Prod.fst hp)
    simp only [ne_eq, decide_eq_true_eq]
    omega
  | a :: t, i + 1, k, hs, hi, hk => by
    simp only [List.get] at hk
    rw [List.map_cons] at hs
    obtain ⟨hhead, htail⟩ := List.pairwise_cons.1 hs
    have hil : i < t.length := by simpa using hi
    have hlt : a.1 < k := by
      have hmem : k ∈ t.map Prod.fst := by
        rw [← hk]
        exact List.mem_map_of_mem Prod.fst (t.get_mem i hil)
      exact hhead k hmem
    rw [List.filter_cons, List.eraseIdx]
    rw [if_pos (by simp; omega)]
    rw [filter_ne_eq_eraseIdx t i k htail hil hk]

/-- One driver-level call on a leaf: an insertion or a removal. -/
inductive LeafOp where
  | ins : Nat → Nat → LeafOp
  | rem : Nat → LeafOp
  deriving DecidableEq, Repr

/-- Apply one call to a leaf node, exactly as the code does. -/
def LeafNode.applyOp (n : LeafNode) : LeafOp → LeafNode
  | .ins k v => n.insert k v
  | .rem k => (n.remove k).2

/-- Apply a sequence of calls to a leaf node. -/
def LeafNode.applyOps (n : LeafNode) : List LeafOp → LeafNode
  | [] => n
  | op :: ops => (n.applyOp op).applyOps ops

/-- Reference model: a key-sorted association list.  Insertion places the
pair at its ordered position. -/
def specIns (m : List (Nat × Nat)) (k v : Nat) : List (Nat × Nat) :=
  m.takeWhile (fun p => p.1 < k) ++ [(k, v)] ++ m.dropWhile (fun p => p.1 < k)

/-- Reference model removal: drop every pair carrying the key. -/
def specRem (m : List (Nat × Nat)) (k : Nat) : List (Nat × Nat) :=
  m.filter (fun p => p.1 ≠ k)

/-- Reference model run of a call sequence. -/
def specApply (m : List (Nat × Nat)) : List LeafOp → List (Nat × Nat)
  | [] => m
  | .ins k v :: ops => specApply (specIns m k v) ops
  | .rem k :: ops => specApply (specRem m k) ops

/-- A call sequence is valid when every insertion is of a key not
currently stored and the node has room for it. -/
def validOps (m : List (Nat × Nat)) : List LeafOp → Bool
  | [] => true
  | .ins k v :: ops =>
    decide (k ∉ m.map Prod.fst) && decide (m.length < 255) &&
      validOps (specIns m k v) ops
  | .rem k :: ops => validOps (specRem m k) ops

lemma map_getD_fst {m : List (Nat × Nat)} {j : Nat} (hj : j < m.length) :
    (m.map Prod.fst).getD j 0 = (m.get ⟨j, hj⟩).1 := by
  rw [List.getD_eq_getElem _ _ (by simpa using hj), List.getElem_map]
  rfl

lemma LeafNode.insert_agrees (n : LeafNode) (m : List (Nat × Nat)) (k v : Nat)
    (hk : n.keys = m.map Prod.fst) (hd : n.data = m.map Prod.snd)
    (hs : List.Pairwise (· < ·) n.keys) (hf : k ∉ n.keys) :
    (n.insert k v).keys = (specIns m k v).map Prod.fst ∧
    (n.insert k v).data = (specIns m k v).map Prod.snd := by
  obtain ⟨hle, hlo, hhi⟩ := fresh_slot_facts hs hf
  have hmlen : m.length = n.keys.length := by rw [hk, List.length_map]
  have hpoint : ∀ j (hj : j < m.length),
      ((fun p => decide (p.1 < k)) (m.get ⟨j, hj⟩) = true ↔
        j < findSlotLeaf n.keys k) := by
    intro j hj
    rw [decide_eq_true_eq]
    have hjk : j < n.keys.length := by omega
    have hval : (m.get ⟨j, hj⟩).1 = n.keys.getD j 0 := by
      rw [hk, map_getD_fst hj]
    rw [hval]
    constructor
    · intro hlt
      by_contra hge
      have := hhi j (by omega) hjk
      omega
    · intro hlt
      exact hlo j hlt hjk
  have ht := takeWhile_dropWhile_eq_take_drop (fun p => decide (p.1 < k)) m
    (findSlotLeaf n.keys k) (by omega) hpoint
  have hsi : specIns m k v =
      m.take (findSlotLeaf n.keys k) ++ [(k, v)] ++
        m.drop (findSlotLeaf n.keys k) := by
    unfold specIns
    rw [ht.1, ht.2]
  rw [hsi]
  constructor
  · show n.keys.take (n.findSlot k) ++ [k] ++ n.keys.drop (n.findSlot k) = _
    rw [List.map_append, List.map_append, List.map_take, List.map_drop, ← hk]
    rfl
  · show n.data.take (n.findSlot k) ++ [v] ++ n.data.drop (n.findSlot k) = _
    rw [List.map_append, List.map_append, List.map_take, List.map_drop, ← hd]
    rfl

lemma LeafNode.remove_agrees (n : LeafNode) (m : List (Nat × Nat)) (k : Nat)
    (hk : n.keys = m.map Prod.fst) (hd : n.data = m.map Prod.snd)
    (hs : List.Pairwise (· < ·) n.keys) :
    ((n.remove k).2).keys = (specRem m k).map Prod.fst ∧
    ((n.remove k).2).data = (specRem m k).map Prod.snd := by
  by_cases hmem : k ∈ n.keys
  · obtain ⟨j, hj, hjk⟩ := List.mem_iff_getElem.1 hmem
    have hgd : n.keys.getD j 0 = k := by
      rw [List.getD_eq_getElem _ _ hj]
      exact hjk
    have hb := bsearch_found hs hj hgd
    have hfs : n.findSlot k = j := by
      rw [LeafNode.findSlot]
      unfold findSlotLeaf
      rw [hb]
    have hguard : n.keys.get? (n.findSlot k) = some k := by
      rw [hfs, List.get?_eq_getElem?, List.getElem?_eq_getElem hj, hjk]
    have hnode : (n.remove k).2 =
        ⟨n.keys.eraseIdx j, n.data.eraseIdx j, n.next⟩ := by
      dsimp only [LeafNode.remove]
      rw [if_pos hguard, hfs]
      rfl
    have hjm : j < m.length := by
      rw [hk, List.length_map] at hj
      exact hj
    have hmk : (m.get ⟨j, hjm⟩).1 = k := by
      rw [← map_getD_fst hjm, ← hk]
      exact hgd
    have hspec := filter_ne_eq_eraseIdx m j k (hk ▸ hs) hjm hmk
    rw [hnode]
    unfold specRem
    rw [hspec]
    constructor
    · show n.keys.eraseIdx j = _
      rw [map_eraseIdx, ← hk]
    · show n.data.eraseIdx j = _
      rw [map_eraseIdx, ← hd]
  · have hguard : ¬ (n.keys.get? (n.findSlot k) = some k) := by
      intro hg
      exact hmem (List.get?_mem hg)
    have hnode : (n.remove k).2 = n := by
      dsimp only [LeafNode.remove]
      rw [if_neg hguard]
    have hspec : specRem m k = m := by
      unfold specRem
      rw [List.filter_eq_self.2]
      intro p hp
      have hne : p.1 ≠ k := by
        intro he
        refine hmem ?_
        rw [hk, ← he]
        exact List.mem_map_of_mem Prod.fst hp
      simpa using hne
    rw [hnode, hspec]
    exact ⟨hk, hd⟩

lemma LeafNode.applyOps_agrees :
    ∀ (ops : List LeafOp) (n : LeafNode) (m : List (Nat × Nat)),
    n.keys = m.map Prod.fst → n.data = m.map Prod.snd →
    List.Pairwise (· < ·) n.keys → validOps m ops = true →
    (n.applyOps ops).keys = (specApply m ops).map Prod.fst ∧
    (n.applyOps ops).data = (specApply m ops).map Prod.snd ∧
    List.Pairwise (· < ·) (n.applyOps ops).keys
  | [], n, m, hk, hd, hs, _ => ⟨hk, hd, hs⟩
  | .ins k v :: ops, n, m, hk, hd, hs, hv => by
    rw [validOps, Bool.and_eq_true, Bool.and_eq_true] at hv
    have hf : k ∉ n.keys := by
      rw [hk]
      exact of_decide_eq_true hv.1.1
    have hstep := LeafNode.insert_agrees n m k v hk hd hs hf
    have hsorted := leaf_insert_pairwise n k v hs hf
    exact LeafNode.applyOps_agrees ops (n.insert k v) (specIns m k v)
      hstep.1 hstep.2 hsorted hv.2
  | .rem k :: ops, n, m, hk, hd, hs, hv => by
    rw [validOps] at hv
    have hstep := LeafNode.remove_agrees n m k hk hd hs
    have hsorted := leaf_remove_pairwise n k hs
    exact LeafNode.applyOps_agrees ops ((n.remove k).2) (specRem m k)
      hstep.1 hstep.2 hsorted hv

lemma LeafNode.lookup_of_mem (n : LeafNode) (m : List (Nat × Nat)) (k v : Nat)
    (hk : n.keys = m.map Prod.fst) (hd : n.data = m.map Prod.snd)
    (hs : List.Pairwise (· < ·) n.keys) (hmem : (k, v) ∈ m) :
    n.contains k = true ∧ n.get k = some v := by
  obtain ⟨j, hj, hjm⟩ := List.mem_iff_getElem.1 hmem
  have hjk : j < n.keys.length := by
    rw [hk, List.length_map]
    exact hj
  have hjmlen : j < m.length := hj
  have hgd : n.keys.getD j 0 = k := by
    rw [List.getD_eq_getElem _ _ hjk]
    have : n.keys = m.map Prod.fst := hk
    rw [List.getElem_of_eq this hjk, List.getElem_map, hjm]
  have hb := bsearch_found hs hjk hgd
  constructor
  · have hfs : n.findSlot k = j := by
      rw [LeafNode.findSlot]
      unfold findSlotLeaf
      rw [hb]
    rw [LeafNode.contains, decide_eq_true_eq, hfs, List.get?_eq_getElem?,
      List.getElem?_eq_getElem hjk]
    rw [← hgd, List.getD_eq_getElem _ _ hjk]
  · rw [LeafNode.get, hb]
    show some (n.data.getD j 0) = some v
    have hdv : n.data.getD j 0 = v := by
      have hjd : j < n.data.length := by
        rw [hd, List.length_map]
        exact hj
      rw [List.getD_eq_getElem _ _ hjd, List.getElem_of_eq hd hjd,
        List.getElem_map, hjm]
    rw [hdv]

lemma InnerNode.contains_false_of_mem (n : InnerNode) (k : Nat)
    (hs : List.Pairwise (· < ·) n.keys) (hmem : k ∈ n.keys) :
    n.contains k = false := by
  obtain ⟨j, hj, hjk⟩ := List.mem_iff_getElem.1 hmem
  have hgd : n.keys.getD j 0 = k := by
    rw [List.getD_eq_getElem _ _ hj]
    exact hjk
  have hfs : n.findSlot k = j + 1 := findSlotInner_found hs hj hgd
  rw [InnerNode.contains, decide_eq_false_iff_not, hfs]
  intro hg
  by_cases hlen : j + 1 < n.keys.length
  · rw [List.get?_eq_getElem?, List.getElem?_eq_getElem hlen] at hg
    have heq : n.keys.getD (j + 1) 0 = k := by
      rw [List.getD_eq_getElem _ _ hlen]
      exact Option.some.inj hg
    have := pairwise_getD_lt hs (show j < j + 1 by omega) hlen
    omega
  · rw [List.get?_eq_getElem?, List.getElem?_eq_none (by omega)] at hg
    exact absurd hg (by simp)

/-- Counterexample to C6 as stated: (a) an inner node never reports a
stored separator through `contains`, because the dispatched `find_slot`
answers `match + 1`; (b) re-inserting a key without removing it first
duplicates the key, and `get` then answers the older value, not the last
one inserted. -/
theorem C6_counterexample :
    ((InnerNode.mk [] [9]).insert 5 7).keys = [5] ∧
    ((InnerNode.mk [] [9]).insert 5 7).contains 5 = false ∧
    (((LeafNode.mk [] [] 0).insert 5 10).insert 5 20).get 5 = some 10 ∧
    (some 10 : Option Nat) ≠ some 20 := by
  exact ⟨by decide, by decide, by decide, by decide⟩

/-- C6 as amended: over any valid call sequence on a leaf — one whose
insertions are always of keys not currently stored — the leaf behaves as
the sorted association map: every pair `(k, v)` of the resulting map
(exactly the keys inserted and not later removed, each with its latest
value) satisfies `contains k = true` and `get k = some v`.  On an inner
node `contains` is `false` even for stored separators. -/
theorem C6_lookup_after_ops :
    (∀ (ops : List LeafOp) (n : LeafNode) (m : List (Nat × Nat)),
      n.keys = m.map Prod.fst → n.data = m.map Prod.snd →
      List.Pairwise (· < ·) n.keys → validOps m ops = true →
      ∀ k v, (k, v) ∈ specApply m ops →
      (n.applyOps ops).contains k = true ∧ (n.applyOps ops).get k = some v) ∧
    (∀ (n : InnerNode) (k : Nat), List.Pairwise (· < ·) n.keys → k ∈ n.keys →
      n.contains k = false) := by
  constructor
  · intro ops n m hk hd hs hv k v hmem
    obtain ⟨h1, h2, h3⟩ := LeafNode.applyOps_agrees ops n m hk hd hs hv
    exact LeafNode.lookup_of_mem _ _ k v h1 h2 h3 hmem
  · intro n k hs hmem
    exact InnerNode.contains_false_of_mem n k hs hmem

/-- Witness for C6: inserting 5, removing it, re-inserting it with value
20 and adding key 7 leaves a node whose lookup finds 5 with its latest
value, and a concrete sorted inner node hides its stored separator. -/
theorem C6_lookup_after_ops_witness :
    ((LeafNode.mk [] [] 0).applyOps
      [LeafOp.ins 5 10, LeafOp.rem 5, LeafOp.ins 5 20,
        LeafOp.ins 7 70]).contains 5 = true ∧
    ((LeafNode.mk [] [] 0).applyOps
      [LeafOp.ins 5 10, LeafOp.rem 5, LeafOp.ins 5 20,
        LeafOp.ins 7 70]).get 5 = some 20 ∧
    (InnerNode.mk [3, 6] [1, 2, 4]).contains 6 = false :=
  ⟨(C6_lookup_after_ops.1
      [LeafOp.ins 5 10, LeafOp.rem 5, LeafOp.ins 5 20, LeafOp.ins 7 70]
      (LeafNode.mk [] [] 0) [] rfl rfl (by decide) (by decide) 5 20
      (by decide)).1,
   (C6_lookup_after_ops.1
      [LeafOp.ins 5 10, LeafOp.rem 5, LeafOp.ins 5 20, LeafOp.ins 7 70]
      (LeafNode.mk [] [] 0) [] rfl rfl (by decide) (by decide) 5 20
      (by decide)).2,
   C6_lookup_after_ops.2 (InnerNode.mk [3, 6] [1, 2, 4])
      6 (sortedLt_pairwise (by decide)) (by decide)⟩

end BTreeNode
